import Mathlib

/-!
Stencil upload for the D3D11 backend (`GPU/D3D11/StencilBufferD3D11.cpp`).

A shallow embedding of the three bit-plane scanners `StencilBits5551`,
`StencilBits4444`, `StencilBits8888` and of
`FramebufferManagerD3D11::NotifyStencilUpload`, followed by the properties
proved about them.

Conventions of the embedding.

* Emulated memory behind a `const u8 *` is a list of bytes; a byte is a `Nat`
  reduced modulo 256 when it is read, and a read past the end of the list
  yields 0.
* The cast `(const u32 *)ptr8` reads little-endian 32-bit words (the D3D11
  backend only exists on little-endian hosts).
* `u8`/`u32` results are `Nat`s with the truncation written out as `% 256` or
  `% 2 ^ 32` where the C++ code converts.
* Calls on the D3D11 device, its context and the collaborators are recorded, in
  program order, in the list of calls a call returns.
* Object creations can fail: a failed creation leaves a null pointer, and the
  routine goes on with it as the source does.
-/

namespace StencilBufferD3D11

/-! ## Memory access -/

/-- The byte `ptr8[k]`. -/
def readU8 (ptr8 : List Nat) (k : Nat) : Nat :=
  ptr8.getD k 0 % 256

/-- The word `((const u32 *)ptr8)[i]`, little-endian. -/
def readU32 (ptr8 : List Nat) (i : Nat) : Nat :=
  readU8 ptr8 (4 * i) + readU8 ptr8 (4 * i + 1) * 2 ^ 8 +
    readU8 ptr8 (4 * i + 2) * 2 ^ 16 + readU8 ptr8 (4 * i + 3) * 2 ^ 24

/-- The 16-bit pixel `((const u16 *)ptr8)[j]`, little-endian. -/
def readU16 (ptr8 : List Nat) (j : Nat) : Nat :=
  readU8 ptr8 (2 * j) + readU8 ptr8 (2 * j + 1) * 2 ^ 8

/-! ## The bit-plane scanners -/

/-- The loop of `StencilBits5551`: `n` iterations remain, the index is `i`.
Returns 1 at the first word with one of the two top bits set. -/
def StencilBits5551.loop (ptr8 : List Nat) : Nat → Nat → Nat
  | 0, _ => 0
  | n + 1, i =>
    if readU32 ptr8 i &&& 0x80008000 ≠ 0 then 1
    else StencilBits5551.loop ptr8 n (i + 1)

/-- `static u8 StencilBits5551(const u8 *ptr8, u32 numPixels)`. -/
def StencilBits5551 (ptr8 : List Nat) (numPixels : Nat) : Nat :=
  StencilBits5551.loop ptr8 (numPixels / 2) 0

/-- The loop `for (i = ...; ...; ++i) bits |= ptr[i];` shared by
`StencilBits4444` and `StencilBits8888`: `n` iterations remain. -/
def orWords (ptr8 : List Nat) : Nat → Nat → Nat → Nat
  | 0, _, bits => bits
  | n + 1, i, bits => orWords ptr8 n (i + 1) (bits ||| readU32 ptr8 i)

/-- `static u8 StencilBits4444(const u8 *ptr8, u32 numPixels)`. -/
def StencilBits4444 (ptr8 : List Nat) (numPixels : Nat) : Nat :=
  let bits := orWords ptr8 (numPixels / 2) 0 0
  (((bits >>> 12) &&& 0xF) ||| (bits >>> 28)) % 256

/-- `static u8 StencilBits8888(const u8 *ptr8, u32 numPixels)`. -/
def StencilBits8888 (ptr8 : List Nat) (numPixels : Nat) : Nat :=
  let bits := orWords ptr8 numPixels 0 0
  (bits >>> 24) % 256

/-- Visited values of `i` in `for (int i = start; i < values; i += i)`. -/
def doublingIndices (values : Nat) (i : Nat) (hi : 0 < i) : List Nat :=
  if h : i < values then i :: doublingIndices values (i + i) (by omega) else []
termination_by values - i

/-! ## Data model of `NotifyStencilUpload` -/

/-- The framebuffer pixel formats of the GE (`enum GEBufferFormat`). -/
inductive GEBufferFormat
  | GE_FORMAT_565
  | GE_FORMAT_5551
  | GE_FORMAT_4444
  | GE_FORMAT_8888
  | GE_FORMAT_INVALID
  deriving DecidableEq, Repr

/-- The fields of `struct VirtualFramebuffer` read by `NotifyStencilUpload`.
`fbo` is the render-target handle, `none` for a null pointer. -/
structure VirtualFramebuffer where
  fb_address : Nat
  fb_stride : Nat
  width : Nat
  height : Nat
  renderWidth : Nat
  renderHeight : Nat
  bufferWidth : Nat
  bufferHeight : Nat
  format : GEBufferFormat
  fbo : Option Nat
  deriving DecidableEq, Repr

/-- Stencil operations (`D3D11_STENCIL_OP`) used here. -/
inductive StencilOp
  | D3D11_STENCIL_OP_KEEP
  | D3D11_STENCIL_OP_REPLACE
  deriving DecidableEq, Repr

/-- Comparison functions (`D3D11_COMPARISON_FUNC`) used here. -/
inductive ComparisonFunc
  | D3D11_COMPARISON_NEVER
  | D3D11_COMPARISON_ALWAYS
  deriving DecidableEq, Repr

/-- A face description, `D3D11_DEPTH_STENCILOP_DESC`. -/
structure DepthStencilOpDesc where
  StencilFailOp : StencilOp
  StencilDepthFailOp : StencilOp
  StencilPassOp : StencilOp
  StencilFunc : ComparisonFunc
  deriving DecidableEq, Repr

/-- The descriptor `D3D11_DEPTH_STENCIL_DESC`; `DepthWriteMask` and `DepthFunc`
are kept as raw numbers because the code leaves them zero-initialised. -/
structure DepthStencilDesc where
  DepthEnable : Bool
  DepthWriteMask : Nat
  DepthFunc : Nat
  StencilEnable : Bool
  StencilReadMask : Nat
  StencilWriteMask : Nat
  FrontFace : DepthStencilOpDesc
  BackFace : DepthStencilOpDesc
  deriving DecidableEq, Repr

/-- A depth-stencil state pointer handed to `OMSetDepthStencilState`: the stock
object `stockD3D11.depthDisabledStencilWrite`, an object made by
`CreateDepthStencilState` (identified with its descriptor), or null. -/
inductive DepthStencilState
  | depthDisabledStencilWrite
  | object (desc : DepthStencilDesc)
  | null
  deriving DecidableEq, Repr

/-- The two vertex buffers bound by the routine. -/
inductive VertexBuffer
  | fsQuadBuffer_
  | quadBuffer_
  deriving DecidableEq, Repr

/-- The calls made on the device, its context and the collaborators, as
recorded in program order. -/
inductive Cmd
  /-- `OMSetBlendState(stockD3D11.blendStateDisabledWithColorMask[m], nullptr, 0xFFFFFFFF)`. -/
  | OMSetBlendState (colorMask : Nat)
  /-- `RSSetState(stockD3D11.rasterStateNoCull)`. -/
  | RSSetState
  | OMSetDepthStencilState (state : DepthStencilState) (stencilRef : Nat)
  | IASetVertexBuffers (buffer : VertexBuffer)
  /-- `IASetPrimitiveTopology(D3D11_PRIMITIVE_TOPOLOGY_TRIANGLESTRIP)`. -/
  | IASetPrimitiveTopology
  | Draw (vertexCount : Nat) (startVertexLocation : Nat)
  | CreatePixelShaderD3D11
  | CreateVertexShaderD3D11
  | CreateInputLayout
  | DirtyLastShader
  | MakePixelTexture (format : GEBufferFormat) (stride : Nat) (width : Nat) (height : Nat)
  | BindFramebufferAsRenderTarget (fbo : Nat)
  | RSSetViewports (width : Nat) (height : Nat)
  /-- `draw_->Clear(Draw::ClearFlag::STENCIL, 0, 0, stencil)`. -/
  | ClearStencil (stencil : Nat)
  /-- `Map`/`memcpy`/`Unmap` of the 20 floats into `quadBuffer_`. -/
  | WriteQuadBuffer (coord : List ℚ)
  | ForgetLastTexture
  | IASetInputLayout (layout : Option Nat)
  | PSSetShader (shader : Option Nat)
  | VSSetShader (shader : Option Nat)
  | PSSetShaderResources
  /-- `device_->CreateDepthStencilState(&desc, &slot)`; `created` tells whether
  the device returned an object. -/
  | CreateDepthStencilState (desc : DepthStencilDesc) (created : Bool)
  | RebindFramebuffer
  deriving DecidableEq, Repr

/-- What the routine consumes from its collaborators: the two address
predicates, the memory lookup (`none` for a null pointer), the results of
the three lazy shader-object creations (`none` on failure) and whether the
device creates a depth-stencil state for a descriptor (`false` on failure,
which leaves the output pointer null). -/
structure Env where
  MayIntersectFramebuffer : Nat → Bool
  MaskedEqual : Nat → Nat → Bool
  GetPointer : Nat → Option (List Nat)
  CreatePixelShaderD3D11 : Option Nat
  CreateVertexShaderD3D11 : Option Nat
  CreateInputLayout : Option Nat
  CreateDepthStencilState : DepthStencilDesc → Bool

/-- The members of `FramebufferManagerD3D11` read or written by the routine.
`stencilMaskStates_` is the 256-slot table of cached state objects. -/
structure FramebufferManagerD3D11 where
  vfbs_ : List VirtualFramebuffer
  stencilUploadPS_ : Option Nat
  stencilUploadVS_ : Option Nat
  stencilUploadInputLayout_ : Option Nat
  stencilMaskStates_ : Nat → Option DepthStencilDesc

/-- Outcome of one call: the returned flag, the manager afterwards and the
calls issued, in order. -/
structure CallResult where
  ret : Bool
  self : FramebufferManagerD3D11
  cmds : List Cmd

/-! ## `NotifyStencilUpload` -/

/-- Lines 110-116: the last tracked framebuffer whose address matches. -/
def findDstBuffer (env : Env) (vfbs : List VirtualFramebuffer) (addr : Nat) :
    Option VirtualFramebuffer :=
  vfbs.foldl (fun dstBuffer vfb =>
    if env.MaskedEqual vfb.fb_address addr then some vfb else dstBuffer) none

/-- Lines 129-148, the `switch` on the format: `none` when it returns false,
otherwise `(usedBits, values)`. The pixel count is the product converted to
`u32`. -/
def scanByFormat (dstBuffer : VirtualFramebuffer) (src : List Nat) : Option (Nat × Nat) :=
  let numPixels := (dstBuffer.fb_stride * dstBuffer.bufferHeight) % 2 ^ 32
  match dstBuffer.format with
  | .GE_FORMAT_565 => none
  | .GE_FORMAT_5551 => some (StencilBits5551 src numPixels, 2)
  | .GE_FORMAT_4444 => some (StencilBits4444 src numPixels, 16)
  | .GE_FORMAT_8888 => some (StencilBits8888 src numPixels, 256)
  | .GE_FORMAT_INVALID => some (0, 0)

/-- Lines 156-162: the quad that clears stencil and alpha. -/
def zeroClearCmds : List Cmd :=
  [.OMSetBlendState 0x8, .RSSetState,
   .OMSetDepthStencilState .depthDisabledStencilWrite 0,
   .IASetVertexBuffers .fsQuadBuffer_, .IASetPrimitiveTopology, .Draw 4 0]

/-- Lines 194-209: the 20 floats of the quad, in exact arithmetic. -/
def quadCoord (fw fh : ℚ) : List ℚ :=
  let coord : List ℚ :=
    [0, 0, 0, 0, 0,
     fw, 0, 0, 1, 0,
     fw, fh, 0, 1, 1,
     0, fh, 0, 0, 1]
  let invDestW := 1 / (fw * (1 / 2))
  let invDestH := 1 / (fh * (1 / 2))
  (List.range 4).foldl (fun coord i =>
    let coord := coord.set (i * 5) (coord.getD (i * 5) 0 * invDestW - 1)
    coord.set (i * 5 + 1) (-(coord.getD (i * 5 + 1) 0 * invDestH - 1))) coord

/-- Lines 236-247: the `uint8_t` pair `(mask, value)` of the pass for `i`. -/
def maskAndValue (format : GEBufferFormat) (i : Nat) : Nat × Nat :=
  if format = .GE_FORMAT_4444 then ((i ||| (i <<< 4)) % 256, (i * 16) % 256)
  else if format = .GE_FORMAT_5551 then (0xFF, (i * 128) % 256)
  else (i % 256, i % 256)

/-- Lines 249-258: the descriptor of the state created for `mask`. -/
def maskStateDesc (mask : Nat) : DepthStencilDesc :=
  let frontFace : DepthStencilOpDesc :=
    { StencilFailOp := .D3D11_STENCIL_OP_REPLACE
      StencilDepthFailOp := .D3D11_STENCIL_OP_REPLACE
      StencilPassOp := .D3D11_STENCIL_OP_REPLACE
      StencilFunc := .D3D11_COMPARISON_ALWAYS }
  { DepthEnable := false
    DepthWriteMask := 0
    DepthFunc := 0
    StencilEnable := true
    StencilReadMask := 0xFF
    StencilWriteMask := mask
    FrontFace := frontFace
    BackFace := frontFace }

/-- The pointer value held in a slot of `stencilMaskStates_`. -/
def slotState (slot : Option DepthStencilDesc) : DepthStencilState :=
  match slot with
  | some desc => .object desc
  | none => .null

/-- Lines 232-262: one iteration of the pass loop, on the cache table and the
calls recorded so far. When the slot is empty the device is asked for a state:
on success the slot holds the new object, on failure it stays null. The result
of the creation is not looked at: whatever the slot holds is bound and the
quad is drawn. -/
def passBody (env : Env) (format : GEBufferFormat) (usedBits : Nat)
    (st : (Nat → Option DepthStencilDesc) × List Cmd) (i : Nat) :
    (Nat → Option DepthStencilDesc) × List Cmd :=
  if usedBits &&& i = 0 then st
  else
    let mask := (maskAndValue format i).1
    let value := (maskAndValue format i).2
    let st1 : (Nat → Option DepthStencilDesc) × List Cmd :=
      if st.1 mask = none then
        (if env.CreateDepthStencilState (maskStateDesc mask) = true then
           Function.update st.1 mask (some (maskStateDesc mask))
         else st.1,
         st.2 ++ [.CreateDepthStencilState (maskStateDesc mask)
           (env.CreateDepthStencilState (maskStateDesc mask))])
      else st
    (st1.1, st1.2 ++ [.OMSetDepthStencilState (slotState (st1.1 mask)) value, .Draw 4 0])

/-- Lines 231-263: `for (int i = 1; i < values; i += i)`. -/
def passLoop (env : Env) (format : GEBufferFormat) (usedBits values : Nat)
    (st : (Nat → Option DepthStencilDesc) × List Cmd) :
    (Nat → Option DepthStencilDesc) × List Cmd :=
  (doublingIndices values 1 Nat.one_pos).foldl (passBody env format usedBits) st

/-- Lines 167-176: lazy creation of the two shaders and the input layout. -/
def ensureShaders (env : Env) (self : FramebufferManagerD3D11) :
    FramebufferManagerD3D11 × List Cmd :=
  let r1 : FramebufferManagerD3D11 × List Cmd :=
    if self.stencilUploadPS_ = none then
      ({ self with stencilUploadPS_ := env.CreatePixelShaderD3D11 }, [.CreatePixelShaderD3D11])
    else (self, [])
  if r1.1.stencilUploadVS_ = none then
    ({ r1.1 with stencilUploadVS_ := env.CreateVertexShaderD3D11
                 stencilUploadInputLayout_ := env.CreateInputLayout },
     r1.2 ++ [.CreateVertexShaderD3D11, .CreateInputLayout])
  else r1

/-- Lines 178-229: everything between the shader creation and the pass loop,
for the manager as it is after `ensureShaders`. -/
def setupCmds (self : FramebufferManagerD3D11) (dstBuffer : VirtualFramebuffer) : List Cmd :=
  let w := dstBuffer.renderWidth % 2 ^ 16
  let h := dstBuffer.renderHeight % 2 ^ 16
  [.DirtyLastShader,
   .MakePixelTexture dstBuffer.format dstBuffer.fb_stride dstBuffer.bufferWidth
     dstBuffer.bufferHeight] ++
  (match dstBuffer.fbo with
   | some fbo => [.BindFramebufferAsRenderTarget fbo]
   | none => []) ++
  [.RSSetViewports w h,
   .ClearStencil 0,
   .WriteQuadBuffer (quadCoord dstBuffer.width dstBuffer.height),
   .DirtyLastShader,
   .ForgetLastTexture,
   .OMSetBlendState 0x8,
   .IASetInputLayout self.stencilUploadInputLayout_,
   .PSSetShader self.stencilUploadPS_,
   .VSSetShader self.stencilUploadVS_,
   .PSSetShaderResources,
   .IASetPrimitiveTopology,
   .RSSetState,
   .IASetVertexBuffers .quadBuffer_,
   .OMSetBlendState 0x8,
   .OMSetDepthStencilState .depthDisabledStencilWrite 0xFF,
   .RSSetState]

/-- Lines 166-265: the multi-pass path, taken when `usedBits` is not 0. -/
def multiPass (env : Env) (self : FramebufferManagerD3D11) (dstBuffer : VirtualFramebuffer)
    (usedBits values : Nat) : CallResult :=
  let sh := ensureShaders env self
  let st := passLoop env dstBuffer.format usedBits values
    (sh.1.stencilMaskStates_, sh.2 ++ setupCmds sh.1 dstBuffer)
  { ret := true
    self := { sh.1 with stencilMaskStates_ := st.1 }
    cmds := st.2 ++ [.RebindFramebuffer] }

/-- `bool FramebufferManagerD3D11::NotifyStencilUpload(u32 addr, int size, bool skipZero)`. -/
def NotifyStencilUpload (env : Env) (self : FramebufferManagerD3D11)
    (addr : Nat) (size : Int) (skipZero : Bool) : CallResult :=
  if !env.MayIntersectFramebuffer addr then { ret := false, self := self, cmds := [] }
  else
    match findDstBuffer env self.vfbs_ addr with
    | none => { ret := false, self := self, cmds := [] }
    | some dstBuffer =>
      match env.GetPointer addr with
      | none => { ret := false, self := self, cmds := [] }
      | some src =>
        match scanByFormat dstBuffer src with
        | none => { ret := false, self := self, cmds := [] }
        | some (usedBits, values) =>
          if usedBits = 0 then
            if skipZero then { ret := false, self := self, cmds := [] }
            else { ret := true, self := self, cmds := zeroClearCmds }
          else multiPass env self dstBuffer usedBits values

/-! ## Reading the recorded calls

The properties of `NotifyStencilUpload` are stated on the calls it records.
The definitions below give the part of the D3D11 context semantics they need:
which output-merger state is bound when a `Draw` is issued, and what a draw
with an always-pass, replace-on-every-outcome stencil state does to one pixel.
-/

/-- A `Draw` call. -/
def Cmd.isDraw : Cmd → Bool
  | .Draw _ _ => true
  | _ => false

/-- A call that writes the stencil attachment: a stencil clear or a draw. -/
def Cmd.modifiesStencil : Cmd → Bool
  | .Draw _ _ => true
  | .ClearStencil _ => true
  | _ => false

/-- The output-merger bindings of the context: the colour-write mask of the
bound blend state and the bound depth-stencil state with its reference value.
`none` stands for whatever was bound before the call. -/
structure OMState where
  blendColorMask : Option Nat
  depthStencil : Option (DepthStencilState × Nat)
  deriving DecidableEq, Repr

/-- Effect of one call on the output-merger bindings. -/
def OMState.exec (s : OMState) : Cmd → OMState
  | .OMSetBlendState m => { s with blendColorMask := some m }
  | .OMSetDepthStencilState st ref => { s with depthStencil := some (st, ref) }
  | _ => s

/-- The bindings after a sequence of calls. -/
def OMState.run (s : OMState) (cmds : List Cmd) : OMState :=
  cmds.foldl OMState.exec s

/-- The bindings in force at each `Draw` of a sequence of calls, in order. -/
def drawStates (s : OMState) : List Cmd → List OMState
  | [] => []
  | c :: cs => if c.isDraw then s :: drawStates s cs else drawStates (s.exec c) cs

/-- The bindings at the entry of a call: nothing known. -/
def OMState.unknown : OMState :=
  { blendColorMask := none, depthStencil := none }

/-- The `(write mask, reference value)` of a draw made with a state object
created by `CreateDepthStencilState`; `none` for a draw made with the stock
state or with a null state. -/
def stencilPassOf (s : OMState) : Option (Nat × Nat) :=
  match s.depthStencil with
  | some (.object desc, ref) => some (desc.StencilWriteMask, ref)
  | _ => none

/-- The reconstruction passes `(mask, value)` issued by a sequence of calls. -/
def reconstructionPasses (cmds : List Cmd) : List (Nat × Nat) :=
  (drawStates OMState.unknown cmds).filterMap stencilPassOf

/-- What the properties below record of a draw: the colour-write mask in force
and the pass `(mask, value)`, if the draw is one. -/
def drawSummary (s : OMState) : Option Nat × Option (Nat × Nat) :=
  (s.blendColorMask, stencilPassOf s)

/-- The replace operation on an 8-bit stencil value:
`(stencil AND NOT mask) OR (value AND mask)`. -/
def stencilReplace (stencil mask value : Nat) : Nat :=
  (stencil &&& (0xFF ^^^ mask)) ||| (value &&& mask)

/-- Replay of the passes on one pixel, from a stencil cleared to 0. A pass
`(mask, value)` touches the pixel when its alpha, aligned to the top of the
8-bit stencil, has the bit of `value` set. -/
def replayPasses (alphaTop : Nat) (passes : List (Nat × Nat)) : Nat :=
  passes.foldl (fun stencil p =>
    if alphaTop &&& p.2 ≠ 0 then stencilReplace stencil p.1 p.2 else stencil) 0

/-- Width of the stencil (alpha) channel of a format. -/
def stencilWidth : GEBufferFormat → Nat
  | .GE_FORMAT_5551 => 1
  | .GE_FORMAT_4444 => 4
  | .GE_FORMAT_8888 => 8
  | _ => 0

/-- The alpha value of pixel `j` of a source image, `stencilWidth` bits wide. -/
def sourceAlpha (format : GEBufferFormat) (src : List Nat) (j : Nat) : Nat :=
  match format with
  | .GE_FORMAT_5551 => readU16 src j >>> 15
  | .GE_FORMAT_4444 => readU16 src j >>> 12
  | .GE_FORMAT_8888 => readU32 src j >>> 24
  | _ => 0

/-- Number of pixels covered by the words that the scanner of a format reads. -/
def scannedPixels (format : GEBufferFormat) (numPixels : Nat) : Nat :=
  match format with
  | .GE_FORMAT_8888 => numPixels
  | _ => 2 * (numPixels / 2)

/-- The cache table is keyed by write mask: the object in slot `m` has
`StencilWriteMask = m`. -/
def MaskStatesKeyed (table : Nat → Option DepthStencilDesc) : Prop :=
  ∀ m desc, table m = some desc → desc.StencilWriteMask = m

/-- A manager with nothing tracked but `vfbs` and nothing created yet. -/
def freshManager (vfbs : List VirtualFramebuffer) : FramebufferManagerD3D11 :=
  { vfbs_ := vfbs
    stencilUploadPS_ := none
    stencilUploadVS_ := none
    stencilUploadInputLayout_ := none
    stencilMaskStates_ := fun _ => none }

/-- A collaborator that resolves every address to the bytes `src` and builds
every shader and state object. -/
def simpleEnv (src : List Nat) : Env :=
  { MayIntersectFramebuffer := fun _ => true
    MaskedEqual := fun a b => a == b
    GetPointer := fun _ => some src
    CreatePixelShaderD3D11 := some 1
    CreateVertexShaderD3D11 := some 2
    CreateInputLayout := some 3
    CreateDepthStencilState := fun _ => true }

/-- The same collaborator with a device that fails every creation of a
depth-stencil state. -/
def failingEnv (src : List Nat) : Env :=
  { MayIntersectFramebuffer := fun _ => true
    MaskedEqual := fun a b => a == b
    GetPointer := fun _ => some src
    CreatePixelShaderD3D11 := some 1
    CreateVertexShaderD3D11 := some 2
    CreateInputLayout := some 3
    CreateDepthStencilState := fun _ => false }

/-- A `stride x height` framebuffer at address 0 of the given format. -/
def simpleBuffer (format : GEBufferFormat) (stride height : Nat) : VirtualFramebuffer :=
  { fb_address := 0
    fb_stride := stride
    width := stride
    height := height
    renderWidth := stride
    renderHeight := height
    bufferWidth := stride
    bufferHeight := height
    format := format
    fbo := some 7 }

/-! ## Further notions used by the properties -/

/-- The loop `for (int i = start; i < values; i += i)` run with at most `fuel`
tests of its condition: `none` when the tests run out before the loop exits. -/
def doublingIndicesFuel (values : Nat) : Nat → Nat → Option (List Nat)
  | 0, _ => none
  | fuel + 1, i =>
    if i < values then (doublingIndicesFuel values fuel (i + i)).map (fun rest => i :: rest)
    else some []

/-- The reference value in force at a draw. -/
def drawRef (s : OMState) : Option Nat :=
  s.depthStencil.map Prod.snd

/-- Number of set bits of an 8-bit value. -/
def popcount8 (u : Nat) : Nat :=
  ((List.range 8).filter (fun k => u.testBit k)).length

/-- The write mask of the state object a call created, if it created one. -/
def createdMask : Cmd → Option Nat
  | .CreateDepthStencilState desc true => some desc.StencilWriteMask
  | _ => none

/-- The write masks of the state objects created by a sequence of calls. -/
def createdMasks (cmds : List Cmd) : List Nat :=
  cmds.filterMap createdMask

/-- A stencil state for write mask `m` as the reconstruction needs it: depth
off, stencil on, every outcome of the always-passing test replaces the stencil
value, on both faces, and only the bits of `m` are written. -/
def IsMaskState (m : Nat) (desc : DepthStencilDesc) : Prop :=
  desc.DepthEnable = false ∧ desc.StencilEnable = true ∧
  desc.StencilReadMask = 0xFF ∧ desc.StencilWriteMask = m ∧
  desc.FrontFace.StencilFunc = .D3D11_COMPARISON_ALWAYS ∧
  desc.FrontFace.StencilPassOp = .D3D11_STENCIL_OP_REPLACE ∧
  desc.FrontFace.StencilFailOp = .D3D11_STENCIL_OP_REPLACE ∧
  desc.FrontFace.StencilDepthFailOp = .D3D11_STENCIL_OP_REPLACE ∧
  desc.BackFace = desc.FrontFace

/-- Every object of the cache table is an always-pass, replace state for the
write mask that is its key. -/
def MaskStatesAlwaysReplace (table : Nat → Option DepthStencilDesc) : Prop :=
  ∀ m desc, table m = some desc → IsMaskState m desc

/-- A sequence of calls of `NotifyStencilUpload`, each with its own view of the
collaborators: the manager at the end and all calls recorded, in order. -/
def runCalls (self : FramebufferManagerD3D11) :
    List (Env × Nat × Int × Bool) → FramebufferManagerD3D11 × List Cmd
  | [] => (self, [])
  | (env, addr, size, skipZero) :: rest =>
    let r := NotifyStencilUpload env self addr size skipZero
    let rr := runCalls r.self rest
    (rr.1, r.cmds ++ rr.2)

/-- Position `(x, y)` of vertex `k` in the 20 floats of a quad. -/
def quadVertex (coord : List ℚ) (k : Nat) : ℚ × ℚ :=
  (coord.getD (k * 5) 0, coord.getD (k * 5 + 1) 0)

/-- Twice the signed area of the triangle `a b p`. -/
def edgeFunction (a b p : ℚ × ℚ) : ℚ :=
  (b.1 - a.1) * (p.2 - a.2) - (b.2 - a.2) * (p.1 - a.1)

/-- The point `p` lies in the closed triangle `a b c`, whatever its winding. -/
def inTriangle (a b c p : ℚ × ℚ) : Prop :=
  (0 ≤ edgeFunction a b p ∧ 0 ≤ edgeFunction b c p ∧ 0 ≤ edgeFunction c a p) ∨
  (edgeFunction a b p ≤ 0 ∧ edgeFunction b c p ≤ 0 ∧ edgeFunction c a p ≤ 0)

/-- The point `p` is covered by the two triangles that a 4-vertex triangle
strip forms from the quad buffer: `(v0, v1, v2)` and `(v1, v2, v3)`. -/
def stripCovers (coord : List ℚ) (p : ℚ × ℚ) : Prop :=
  inTriangle (quadVertex coord 0) (quadVertex coord 1) (quadVertex coord 2) p ∨
  inTriangle (quadVertex coord 1) (quadVertex coord 2) (quadVertex coord 3) p

/-- Line 47 of the pixel shader: `floor(x * 255.99)`, in exact arithmetic. -/
def roundAndScaleTo255f (x : ℚ) : ℚ :=
  (⌊x * (25599 / 100)⌋ : ℤ)

/-- HLSL `fmod`: the remainder of `x / y` with the sign of `x`. -/
def fmod (x y : ℚ) : ℚ :=
  x - y * (if 0 ≤ x / y then (⌊x / y⌋ : ℤ) else (⌈x / y⌉ : ℤ))

/-- Line 50 of the pixel shader: `shifted`, from the sampled alpha and the
constant `u_stencilValue.x`. -/
def stencil_ps_shifted (alpha u_stencilValue : ℚ) : ℚ :=
  roundAndScaleTo255f alpha / roundAndScaleTo255f u_stencilValue

/-- Line 51 of the pixel shader: the fragment survives `clip(x)` when `x` is
not negative. -/
def stencil_ps_keeps (alpha u_stencilValue : ℚ) : Prop :=
  0 ≤ fmod ((⌊stencil_ps_shifted alpha u_stencilValue⌋ : ℤ) : ℚ) 2 - 99 / 100

/-- How a sequence of calls may take the cache table from `t` to `t'`: entries
are kept; objects are created at most once per write mask and stay in the
table; every entry of `t'` was in `t` or was created; a creation is asked only
for a slot that was empty, with the descriptor of `maskStateDesc`; and every
depth-stencil state bound is the stock state, an object held by `t'`, or null
after a creation that failed. -/
def CacheStep (t t' : Nat → Option DepthStencilDesc) (cmds : List Cmd) : Prop :=
  (∀ m desc, t m = some desc → t' m = some desc) ∧
  (createdMasks cmds).Nodup ∧
  (∀ m, m ∈ createdMasks cmds → t m = none ∧ t' m = some (maskStateDesc m)) ∧
  (∀ m desc, t' m = some desc →
    t m = some desc ∨ (desc = maskStateDesc m ∧ m ∈ createdMasks cmds)) ∧
  (∀ desc created, Cmd.CreateDepthStencilState desc created ∈ cmds →
    desc = maskStateDesc desc.StencilWriteMask ∧ t desc.StencilWriteMask = none) ∧
  (∀ state ref, Cmd.OMSetDepthStencilState state ref ∈ cmds →
    state = DepthStencilState.depthDisabledStencilWrite ∨
      (state = DepthStencilState.null ∧
        ∃ desc, Cmd.CreateDepthStencilState desc false ∈ cmds) ∨
      ∃ m desc, state = DepthStencilState.object desc ∧ t' m = some desc)

/-! ## Facts about memory reads and the scanners -/

theorem readU8_lt (ptr8 : List Nat) (k : Nat) : readU8 ptr8 k < 256 :=
  Nat.mod_lt _ (by decide)

theorem readU32_lt (ptr8 : List Nat) (i : Nat) : readU32 ptr8 i < 2 ^ 32 := by
  have h0 := readU8_lt ptr8 (4 * i)
  have h1 := readU8_lt ptr8 (4 * i + 1)
  have h2 := readU8_lt ptr8 (4 * i + 2)
  have h3 := readU8_lt ptr8 (4 * i + 3)
  unfold readU32
  omega

theorem readU16_lt (ptr8 : List Nat) (j : Nat) : readU16 ptr8 j < 2 ^ 16 := by
  have h0 := readU8_lt ptr8 (2 * j)
  have h1 := readU8_lt ptr8 (2 * j + 1)
  unfold readU16
  omega

/-- A 32-bit word is its two 16-bit pixels, the even one in the low half. -/
theorem readU32_eq_readU16 (ptr8 : List Nat) (i : Nat) :
    readU32 ptr8 i = 2 ^ 16 * readU16 ptr8 (2 * i + 1) + readU16 ptr8 (2 * i) := by
  unfold readU32 readU16
  have e1 : 2 * (2 * i) = 4 * i := by omega
  have e2 : 2 * (2 * i + 1) = 4 * i + 2 := by omega
  have e3 : 4 * i + 2 + 1 = 4 * i + 3 := by omega
  rw [e1, e2, e3]
  omega

/-- Bits of a word in terms of the bits of its two pixels. -/
theorem readU32_testBit (ptr8 : List Nat) (i k : Nat) :
    (readU32 ptr8 i).testBit k =
      if k < 16 then (readU16 ptr8 (2 * i)).testBit k
      else (readU16 ptr8 (2 * i + 1)).testBit (k - 16) := by
  rw [readU32_eq_readU16]
  exact Nat.testBit_mul_pow_two_add _ (readU16_lt ptr8 (2 * i)) k

theorem orWords_lt (ptr8 : List Nat) (n i bits : Nat) (h : bits < 2 ^ 32) :
    orWords ptr8 n i bits < 2 ^ 32 := by
  induction n generalizing i bits with
  | zero => simpa [orWords] using h
  | succ n ih =>
    rw [orWords]
    exact ih _ _ (Nat.or_lt_two_pow h (readU32_lt ptr8 i))

/-- A bit of the accumulated OR is set exactly when it was set at the start or
is set in one of the words visited. -/
theorem orWords_testBit (ptr8 : List Nat) (n i bits k : Nat) :
    (orWords ptr8 n i bits).testBit k = true ↔
      bits.testBit k = true ∨ ∃ j, j < n ∧ (readU32 ptr8 (i + j)).testBit k = true := by
  induction n generalizing i bits with
  | zero => simp [orWords]
  | succ n ih =>
    rw [orWords, ih]
    constructor
    · rintro (h | ⟨j, hj, h⟩)
      · rw [Nat.testBit_or, Bool.or_eq_true] at h
        rcases h with h | h
        · exact Or.inl h
        · exact Or.inr ⟨0, Nat.succ_pos n, by simpa using h⟩
      · refine Or.inr ⟨j + 1, Nat.succ_lt_succ hj, ?_⟩
        have e : i + (j + 1) = i + 1 + j := by omega
        rw [e]; exact h
    · rintro (h | ⟨j, hj, h⟩)
      · exact Or.inl (by rw [Nat.testBit_or, h]; rfl)
      · cases j with
        | zero =>
          refine Or.inl ?_
          rw [Nat.testBit_or, Bool.or_eq_true]
          exact Or.inr (by simpa using h)
        | succ j =>
          refine Or.inr ⟨j, Nat.lt_of_succ_lt_succ hj, ?_⟩
          have e : i + 1 + j = i + (j + 1) := by omega
          rw [e]; exact h

/-- Bits of the value returned by `StencilBits8888`. -/
theorem StencilBits8888_testBit (ptr8 : List Nat) (numPixels i : Nat) (hi : i < 8) :
    (StencilBits8888 ptr8 numPixels).testBit i = true ↔
      ∃ j, j < numPixels ∧ (readU32 ptr8 j).testBit (24 + i) = true := by
  have e : (256 : Nat) = 2 ^ 8 := by norm_num
  unfold StencilBits8888
  simp only [e, Nat.testBit_mod_two_pow, Nat.testBit_shiftRight, hi, decide_True,
    Bool.true_and]
  rw [orWords_testBit]
  simp

theorem StencilBits8888_lt (ptr8 : List Nat) (numPixels : Nat) :
    StencilBits8888 ptr8 numPixels < 256 :=
  Nat.mod_lt _ (by decide)

/-- Bits of the value returned by `StencilBits4444`. -/
theorem StencilBits4444_testBit (ptr8 : List Nat) (numPixels k : Nat) (hk : k < 4) :
    (StencilBits4444 ptr8 numPixels).testBit k = true ↔
      ∃ j, j < numPixels / 2 ∧
        ((readU32 ptr8 j).testBit (12 + k) = true ∨
          (readU32 ptr8 j).testBit (28 + k) = true) := by
  have e : (256 : Nat) = 2 ^ 8 := by norm_num
  have e15 : (0xF : Nat) = 2 ^ 4 - 1 := by norm_num
  have hk8 : k < 8 := by omega
  unfold StencilBits4444
  simp only [e, e15, Nat.testBit_mod_two_pow, Nat.testBit_or, Nat.testBit_and,
    Nat.testBit_shiftRight, Nat.testBit_two_pow_sub_one, hk, hk8, decide_True,
    Bool.true_and, Bool.and_true, Bool.or_eq_true]
  rw [orWords_testBit, orWords_testBit]
  simp only [Nat.zero_testBit, Bool.false_eq_true, false_or, Nat.zero_add]
  constructor
  · rintro (⟨j, hj, h⟩ | ⟨j, hj, h⟩)
    · exact ⟨j, hj, Or.inl h⟩
    · exact ⟨j, hj, Or.inr h⟩
  · rintro ⟨j, hj, h | h⟩
    · exact Or.inl ⟨j, hj, h⟩
    · exact Or.inr ⟨j, hj, h⟩

theorem StencilBits4444_lt (ptr8 : List Nat) (numPixels : Nat) :
    StencilBits4444 ptr8 numPixels < 16 := by
  have hb := orWords_lt ptr8 (numPixels / 2) 0 0 (by norm_num)
  have e16 : (16 : Nat) = 2 ^ 4 := by norm_num
  unfold StencilBits4444
  refine Nat.lt_of_le_of_lt (Nat.mod_le _ _) ?_
  rw [e16]
  refine Nat.or_lt_two_pow ?_ ?_
  · exact Nat.lt_of_le_of_lt Nat.and_le_right (by norm_num)
  · rw [Nat.shiftRight_eq_div_pow]
    exact Nat.div_lt_of_lt_mul (by simpa using hb)

/-- Result of the early-exit loop of `StencilBits5551`. -/
theorem StencilBits5551_loop_eq (ptr8 : List Nat) (n i : Nat) :
    StencilBits5551.loop ptr8 n i =
      if ∃ j, j < n ∧ readU32 ptr8 (i + j) &&& 0x80008000 ≠ 0 then 1 else 0 := by
  induction n generalizing i with
  | zero => simp [StencilBits5551.loop]
  | succ n ih =>
    rw [StencilBits5551.loop]
    by_cases h0 : readU32 ptr8 i &&& 0x80008000 ≠ 0
    · rw [if_pos h0, if_pos ⟨0, Nat.succ_pos n, by simpa using h0⟩]
    · rw [if_neg h0, ih]
      have hiff : (∃ j, j < n ∧ readU32 ptr8 (i + 1 + j) &&& 0x80008000 ≠ 0) ↔
          (∃ j, j < n + 1 ∧ readU32 ptr8 (i + j) &&& 0x80008000 ≠ 0) := by
        constructor
        · rintro ⟨j, hj, h⟩
          refine ⟨j + 1, Nat.succ_lt_succ hj, ?_⟩
          have e : i + (j + 1) = i + 1 + j := by omega
          rw [e]; exact h
        · rintro ⟨j, hj, h⟩
          cases j with
          | zero => exact absurd (by simpa using h) h0
          | succ j =>
            refine ⟨j, Nat.lt_of_succ_lt_succ hj, ?_⟩
            have e : i + 1 + j = i + (j + 1) := by omega
            rw [e]; exact h
      simp only [hiff]

/-- The test `ptr[i] & 0x80008000` sees the top bits of the two pixels. -/
theorem and_80008000_ne_zero (ptr8 : List Nat) (i : Nat) :
    readU32 ptr8 i &&& 0x80008000 ≠ 0 ↔
      (readU16 ptr8 (2 * i)).testBit 15 = true ∨
        (readU16 ptr8 (2 * i + 1)).testBit 15 = true := by
  have e : (0x80008000 : Nat) = 2 ^ 16 * 2 ^ 15 + 2 ^ 15 := by norm_num
  have hbit : ∀ k, (0x80008000 : Nat).testBit k = (decide (k = 15) || decide (k = 31)) := by
    intro k
    rw [e, Nat.testBit_mul_pow_two_add _ (by norm_num : 2 ^ 15 < 2 ^ 16)]
    by_cases hk : k < 16
    · simp only [if_pos hk, Nat.testBit_two_pow]
      by_cases h15 : k = 15
      · simp [h15]
      · have : ¬ 15 = k := fun h => h15 h.symm
        have : ¬ k = 31 := by omega
        simp [*]
    · simp only [if_neg hk, Nat.testBit_two_pow]
      by_cases h31 : k = 31
      · simp [h31]
      · have : ¬ 15 = k - 16 := by omega
        have : ¬ k = 15 := by omega
        simp [*]
  constructor
  · intro h
    obtain ⟨k, hk⟩ := Nat.ne_zero_implies_bit_true h
    rw [Nat.testBit_and, hbit, Bool.and_eq_true, Bool.or_eq_true] at hk
    obtain ⟨h1, h2 | h2⟩ := hk
    · have hk15 : k = 15 := by simpa using h2
      subst hk15
      rw [readU32_testBit] at h1
      exact Or.inl (by simpa using h1)
    · have hk31 : k = 31 := by simpa using h2
      subst hk31
      rw [readU32_testBit] at h1
      exact Or.inr (by simpa using h1)
  · intro h hz
    rcases h with h | h
    · have : (readU32 ptr8 i &&& 0x80008000).testBit 15 = true := by
        rw [Nat.testBit_and, hbit, readU32_testBit]
        simpa using h
      rw [hz] at this
      simp at this
    · have : (readU32 ptr8 i &&& 0x80008000).testBit 31 = true := by
        rw [Nat.testBit_and, hbit, readU32_testBit]
        simpa using h
      rw [hz] at this
      simp at this

/-- Some pixel below `2 * n` has its top bit set exactly when some word below
`n` passes the test of `StencilBits5551`. -/
theorem exists_word_iff_exists_pixel (ptr8 : List Nat) (n : Nat) :
    (∃ j, j < n ∧ readU32 ptr8 (0 + j) &&& 0x80008000 ≠ 0) ↔
      ∃ j, j < 2 * n ∧ (readU16 ptr8 j).testBit 15 = true := by
  constructor
  · rintro ⟨j, hj, h⟩
    rw [Nat.zero_add, and_80008000_ne_zero] at h
    rcases h with h | h
    · exact ⟨2 * j, by omega, h⟩
    · exact ⟨2 * j + 1, by omega, h⟩
  · rintro ⟨j, hj, h⟩
    refine ⟨j / 2, by omega, ?_⟩
    rw [Nat.zero_add, and_80008000_ne_zero]
    rcases Nat.mod_two_eq_zero_or_one j with hm | hm
    · have e : 2 * (j / 2) = j := by omega
      exact Or.inl (by rw [e]; exact h)
    · have e : 2 * (j / 2) + 1 = j := by omega
      exact Or.inr (by rw [e]; exact h)

/-- The value returned by `StencilBits5551`, by pixels. -/
theorem StencilBits5551_eq (ptr8 : List Nat) (numPixels : Nat) :
    StencilBits5551 ptr8 numPixels =
      if ∃ j, j < 2 * (numPixels / 2) ∧ (readU16 ptr8 j).testBit 15 = true then 1 else 0 := by
  unfold StencilBits5551
  rw [StencilBits5551_loop_eq]
  simp only [exists_word_iff_exists_pixel]

theorem StencilBits5551_le_one (ptr8 : List Nat) (numPixels : Nat) :
    StencilBits5551 ptr8 numPixels ≤ 1 := by
  unfold StencilBits5551
  rw [StencilBits5551_loop_eq]
  split <;> omega

/-! ## Facts about the pass loop and the recorded calls -/

theorem doublingIndices_zero : doublingIndices 0 1 Nat.one_pos = [] := by
  simp [doublingIndices]

theorem doublingIndices_two : doublingIndices 2 1 Nat.one_pos = [1] := by
  simp [doublingIndices]

theorem doublingIndices_sixteen : doublingIndices 16 1 Nat.one_pos = [1, 2, 4, 8] := by
  simp [doublingIndices]

theorem doublingIndices_256 :
    doublingIndices 256 1 Nat.one_pos = [1, 2, 4, 8, 16, 32, 64, 128] := by
  simp [doublingIndices]

theorem drawStates_append (s : OMState) (a b : List Cmd) :
    drawStates s (a ++ b) = drawStates s a ++ drawStates (s.run a) b := by
  induction a generalizing s with
  | nil => rfl
  | cons c cs ih =>
    by_cases hc : c.isDraw = true
    · cases c <;> simp [Cmd.isDraw] at hc
      simp [drawStates, Cmd.isDraw, OMState.run, OMState.exec, ih]
    · simp only [List.cons_append, drawStates, hc, OMState.run, List.foldl_cons]
      exact ih (s.exec c)

theorem OMState.run_append (s : OMState) (a b : List Cmd) :
    s.run (a ++ b) = (s.run a).run b := by
  simp [OMState.run, List.foldl_append]

/-- One iteration of the pass loop, for a device that creates the states it is
asked for: the table stays keyed, calls are only appended, and the appended
calls hold one draw, the pass of `i`, exactly when bit `i` is used. -/
theorem passBody_spec (env : Env) (format : GEBufferFormat) (usedBits i : Nat)
    (st : (Nat → Option DepthStencilDesc) × List Cmd) (hk : MaskStatesKeyed st.1)
    (hc : ∀ m, env.CreateDepthStencilState (maskStateDesc m) = true) :
    MaskStatesKeyed (passBody env format usedBits st i).1 ∧
    ∃ extra, (passBody env format usedBits st i).2 = st.2 ++ extra ∧
      (∀ c, c ∈ extra → c.modifiesStencil = true → c.isDraw = true) ∧
      ∀ s : OMState,
        (drawStates s extra).map drawSummary =
          (if usedBits &&& i = 0 then []
           else [(s.blendColorMask, some (maskAndValue format i))]) ∧
        (s.run extra).blendColorMask = s.blendColorMask := by
  by_cases hu : usedBits &&& i = 0
  · refine ⟨by simpa [passBody, hu] using hk, [], by simp [passBody, hu], by simp, ?_⟩
    intro s
    simp [hu, drawStates, OMState.run]
  · by_cases hnone : st.1 (maskAndValue format i).1 = none
    · refine ⟨?_, [.CreateDepthStencilState (maskStateDesc (maskAndValue format i).1) true,
        .OMSetDepthStencilState (.object (maskStateDesc (maskAndValue format i).1))
          (maskAndValue format i).2, .Draw 4 0], ?_, ?_, ?_⟩
      · intro m desc hm
        simp only [passBody, hu, hnone, hc, if_true, if_false] at hm
        by_cases hmm : m = (maskAndValue format i).1
        · subst hmm
          rw [Function.update_same] at hm
          cases hm
          rfl
        · rw [Function.update_noteq hmm] at hm
          exact hk m desc hm
      · simp [passBody, hu, hnone, hc, slotState]
      · intro c hc'
        simp only [List.mem_cons, List.mem_singleton, List.not_mem_nil, or_false] at hc'
        rcases hc' with rfl | rfl | rfl <;> simp [Cmd.modifiesStencil, Cmd.isDraw]
      · intro s
        simp [hu, drawStates, Cmd.isDraw, OMState.exec, OMState.run, drawSummary,
          stencilPassOf, maskStateDesc]
    · obtain ⟨desc, hdesc⟩ := Option.ne_none_iff_exists'.1 hnone
      have hw := hk _ _ hdesc
      refine ⟨by simpa [passBody, hu, hnone] using hk,
        [.OMSetDepthStencilState (.object desc) (maskAndValue format i).2, .Draw 4 0],
        ?_, ?_, ?_⟩
      · simp [passBody, hu, hnone, hdesc, slotState]
      · intro c hc'
        simp only [List.mem_cons, List.mem_singleton, List.not_mem_nil, or_false] at hc'
        rcases hc' with rfl | rfl <;> simp [Cmd.modifiesStencil, Cmd.isDraw]
      · intro s
        simp [hu, drawStates, Cmd.isDraw, OMState.exec, OMState.run, drawSummary,
          stencilPassOf, hw]

/-- The pass loop over any list of indices, for a device that creates the
states it is asked for: the table stays keyed, calls are only appended, and the
draws appended are the passes of the used indices, in order, each under the
colour-write mask bound before the loop. -/
theorem foldl_passBody_spec (env : Env) (format : GEBufferFormat) (usedBits : Nat)
    (is : List Nat)
    (st : (Nat → Option DepthStencilDesc) × List Cmd) (hk : MaskStatesKeyed st.1)
    (hc : ∀ m, env.CreateDepthStencilState (maskStateDesc m) = true) :
    MaskStatesKeyed (is.foldl (passBody env format usedBits) st).1 ∧
    ∃ extra, (is.foldl (passBody env format usedBits) st).2 = st.2 ++ extra ∧
      (∀ c, c ∈ extra → c.modifiesStencil = true → c.isDraw = true) ∧
      ∀ s : OMState,
        (drawStates s extra).map drawSummary =
          (is.filter (fun i => decide (usedBits &&& i ≠ 0))).map
            (fun i => (s.blendColorMask, some (maskAndValue format i))) ∧
        (s.run extra).blendColorMask = s.blendColorMask := by
  induction is generalizing st with
  | nil =>
    refine ⟨hk, [], by simp, by simp, ?_⟩
    intro s
    simp [drawStates, OMState.run]
  | cons i is ih =>
    obtain ⟨hk1, e1, he1, hm1, hd1⟩ := passBody_spec env format usedBits i st hk hc
    obtain ⟨hk2, e2, he2, hm2, hd2⟩ := ih (passBody env format usedBits st i) hk1
    refine ⟨by simpa using hk2, e1 ++ e2, ?_, ?_, ?_⟩
    · simp only [List.foldl_cons]
      rw [he2, he1, List.append_assoc]
    · intro c hc'
      rcases List.mem_append.1 hc' with h | h
      · exact hm1 c h
      · exact hm2 c h
    · intro s
      obtain ⟨hd1a, hd1b⟩ := hd1 s
      obtain ⟨hd2a, hd2b⟩ := hd2 (s.run e1)
      refine ⟨?_, ?_⟩
      · rw [drawStates_append, List.map_append, hd1a, hd2a, hd1b]
        by_cases hu : usedBits &&& i = 0
        · simp [hu]
        · simp [hu]
      · rw [OMState.run_append, hd2b, hd1b]

theorem and_two_pow_ne_zero (u k : Nat) : u &&& 2 ^ k ≠ 0 ↔ u.testBit k = true := by
  constructor
  · intro h
    obtain ⟨b, hb⟩ := Nat.ne_zero_implies_bit_true h
    rw [Nat.testBit_and, Nat.testBit_two_pow, Bool.and_eq_true] at hb
    have hkb : k = b := by simpa using hb.2
    rw [hkb]
    exact hb.1
  · intro h hz
    have : (u &&& 2 ^ k).testBit k = true := by
      rw [Nat.testBit_and, h, Nat.testBit_two_pow_self]
      rfl
    rw [hz] at this
    simp at this

theorem ensureShaders_table (env : Env) (self : FramebufferManagerD3D11) :
    (ensureShaders env self).1.stencilMaskStates_ = self.stencilMaskStates_ := by
  unfold ensureShaders
  by_cases h1 : self.stencilUploadPS_ = none <;>
    by_cases h2 : self.stencilUploadVS_ = none <;> simp [h1, h2]

/-- The calls before the pass loop hold no draw, clear the stencil, and leave
the colour-write mask `0x8` bound. -/
theorem preLoop_spec (env : Env) (self : FramebufferManagerD3D11)
    (dstBuffer : VirtualFramebuffer) (s : OMState) :
    drawStates s ((ensureShaders env self).2 ++
        setupCmds (ensureShaders env self).1 dstBuffer) = [] ∧
    (s.run ((ensureShaders env self).2 ++
        setupCmds (ensureShaders env self).1 dstBuffer)).blendColorMask = some 0x8 ∧
    Cmd.ClearStencil 0 ∈ (ensureShaders env self).2 ++
        setupCmds (ensureShaders env self).1 dstBuffer ∧
    ∀ c, c ∈ (ensureShaders env self).2 ++
        setupCmds (ensureShaders env self).1 dstBuffer → c.isDraw = false := by
  have hsh : ∀ s : OMState, drawStates s (ensureShaders env self).2 = [] ∧
      s.run (ensureShaders env self).2 = s ∧
      ∀ c, c ∈ (ensureShaders env self).2 → c.isDraw = false := by
    intro s
    unfold ensureShaders
    by_cases h1 : self.stencilUploadPS_ = none <;>
      by_cases h2 : self.stencilUploadVS_ = none <;>
      simp [h1, h2, drawStates, Cmd.isDraw, OMState.run, OMState.exec]
  have hset : ∀ (m : FramebufferManagerD3D11) (s : OMState),
      drawStates s (setupCmds m dstBuffer) = [] ∧
      (s.run (setupCmds m dstBuffer)).blendColorMask = some 0x8 ∧
      Cmd.ClearStencil 0 ∈ setupCmds m dstBuffer ∧
      ∀ c, c ∈ setupCmds m dstBuffer → c.isDraw = false := by
    intro m s
    unfold setupCmds
    cases dstBuffer.fbo <;>
      simp [drawStates, Cmd.isDraw, OMState.run, OMState.exec]
  obtain ⟨a1, a2, a3⟩ := hsh s
  obtain ⟨b1, b2, b3, b4⟩ := hset (ensureShaders env self).1 s
  refine ⟨?_, ?_, List.mem_append_right _ b3, ?_⟩
  · rw [drawStates_append, a1, a2, b1]
    rfl
  · rw [OMState.run_append, a2, b2]
  · intro c hc
    rcases List.mem_append.1 hc with h | h
    · exact a3 c h
    · exact b4 c h

/-- The multi-pass path, for a device that creates the states it is asked for:
it returns true, keeps the table keyed, clears the stencil, and its draws are
the passes of the used indices below `values`, in order, each under the
colour-write mask `0x8`. -/
theorem multiPass_spec (env : Env) (self : FramebufferManagerD3D11)
    (dstBuffer : VirtualFramebuffer) (usedBits values : Nat)
    (hk : MaskStatesKeyed self.stencilMaskStates_)
    (hc : ∀ m, env.CreateDepthStencilState (maskStateDesc m) = true) :
    (multiPass env self dstBuffer usedBits values).ret = true ∧
    MaskStatesKeyed (multiPass env self dstBuffer usedBits values).self.stencilMaskStates_ ∧
    Cmd.ClearStencil 0 ∈ (multiPass env self dstBuffer usedBits values).cmds ∧
    (drawStates OMState.unknown (multiPass env self dstBuffer usedBits values).cmds).map
        drawSummary =
      ((doublingIndices values 1 Nat.one_pos).filter
          (fun i => decide (usedBits &&& i ≠ 0))).map
        (fun i => (some 0x8, some (maskAndValue dstBuffer.format i))) := by
  have hk0 : MaskStatesKeyed (ensureShaders env self).1.stencilMaskStates_ := by
    rw [ensureShaders_table]; exact hk
  obtain ⟨hk1, extra, he, _, hd⟩ := foldl_passBody_spec env dstBuffer.format usedBits
    (doublingIndices values 1 Nat.one_pos)
    ((ensureShaders env self).1.stencilMaskStates_,
      (ensureShaders env self).2 ++ setupCmds (ensureShaders env self).1 dstBuffer) hk0 hc
  obtain ⟨p1, p2, p3, _⟩ := preLoop_spec env self dstBuffer OMState.unknown
  have hcmds : (multiPass env self dstBuffer usedBits values).cmds =
      ((ensureShaders env self).2 ++ setupCmds (ensureShaders env self).1 dstBuffer) ++
        (extra ++ [Cmd.RebindFramebuffer]) := by
    simp only [multiPass, passLoop]
    rw [he, List.append_assoc]
  refine ⟨rfl, hk1, ?_, ?_⟩
  · rw [hcmds]
    exact List.mem_append_left _ p3
  · obtain ⟨hd1, _⟩ := hd (OMState.unknown.run
      ((ensureShaders env self).2 ++ setupCmds (ensureShaders env self).1 dstBuffer))
    rw [hcmds, drawStates_append, p1, List.nil_append, drawStates_append, List.map_append,
      hd1, p2]
    simp [drawStates, Cmd.isDraw]

/-- The routine once the destination and the source are resolved and the
format switch has produced `(usedBits, values)`. -/
theorem NotifyStencilUpload_resolved (env : Env) (self : FramebufferManagerD3D11)
    (addr : Nat) (size : Int) (skipZero : Bool) (dstBuffer : VirtualFramebuffer)
    (src : List Nat) (usedBits values : Nat)
    (h1 : env.MayIntersectFramebuffer addr = true)
    (h2 : findDstBuffer env self.vfbs_ addr = some dstBuffer)
    (h3 : env.GetPointer addr = some src)
    (h4 : scanByFormat dstBuffer src = some (usedBits, values)) :
    NotifyStencilUpload env self addr size skipZero =
      if usedBits = 0 then
        if skipZero then { ret := false, self := self, cmds := [] }
        else { ret := true, self := self, cmds := zeroClearCmds }
      else multiPass env self dstBuffer usedBits values := by
  simp only [NotifyStencilUpload, h1, h2, h3, h4, Bool.not_true, Bool.false_eq_true, if_false]

/-- The three shapes a call can take. -/
theorem NotifyStencilUpload_cases (env : Env) (self : FramebufferManagerD3D11)
    (addr : Nat) (size : Int) (skipZero : Bool) :
    NotifyStencilUpload env self addr size skipZero =
        { ret := false, self := self, cmds := [] } ∨
    NotifyStencilUpload env self addr size skipZero =
        { ret := true, self := self, cmds := zeroClearCmds } ∨
    ∃ dstBuffer usedBits values,
      NotifyStencilUpload env self addr size skipZero =
        multiPass env self dstBuffer usedBits values := by
  by_cases h1 : env.MayIntersectFramebuffer addr = true
  · cases h2 : findDstBuffer env self.vfbs_ addr with
    | none => exact Or.inl (by simp [NotifyStencilUpload, h1, h2])
    | some dstBuffer =>
      cases h3 : env.GetPointer addr with
      | none => exact Or.inl (by simp [NotifyStencilUpload, h1, h2, h3])
      | some src =>
        cases h4 : scanByFormat dstBuffer src with
        | none => exact Or.inl (by simp [NotifyStencilUpload, h1, h2, h3, h4])
        | some uv =>
          obtain ⟨usedBits, values⟩ := uv
          rw [NotifyStencilUpload_resolved env self addr size skipZero dstBuffer src
            usedBits values h1 h2 h3 h4]
          by_cases hu : usedBits = 0
          · cases skipZero
            · exact Or.inr (Or.inl (by simp [hu]))
            · exact Or.inl (by simp [hu])
          · exact Or.inr (Or.inr ⟨dstBuffer, usedBits, values, by simp [hu]⟩)
  · exact Or.inl (by simp [NotifyStencilUpload, h1])

/-- One iteration of the pass loop only appends calls, whatever the table
holds and the device does. -/
theorem passBody_prefix (env : Env) (format : GEBufferFormat) (usedBits i : Nat)
    (st : (Nat → Option DepthStencilDesc) × List Cmd) :
    ∃ extra, (passBody env format usedBits st i).2 = st.2 ++ extra := by
  by_cases hu : usedBits &&& i = 0
  · exact ⟨[], by simp [passBody, hu]⟩
  · by_cases hnone : st.1 (maskAndValue format i).1 = none
    · exact ⟨[.CreateDepthStencilState (maskStateDesc (maskAndValue format i).1)
          (env.CreateDepthStencilState (maskStateDesc (maskAndValue format i).1)),
        .OMSetDepthStencilState (slotState
          ((if env.CreateDepthStencilState (maskStateDesc (maskAndValue format i).1) = true
            then Function.update st.1 (maskAndValue format i).1
              (some (maskStateDesc (maskAndValue format i).1))
            else st.1) (maskAndValue format i).1))
          (maskAndValue format i).2, .Draw 4 0],
        by simp [passBody, hu, hnone]⟩
    · exact ⟨[.OMSetDepthStencilState (slotState (st.1 (maskAndValue format i).1))
          (maskAndValue format i).2, .Draw 4 0],
        by simp [passBody, hu, hnone]⟩

/-- The pass loop only appends calls, whatever the table holds. -/
theorem foldl_passBody_prefix (env : Env) (format : GEBufferFormat) (usedBits : Nat)
    (is : List Nat) (st : (Nat → Option DepthStencilDesc) × List Cmd) :
    ∃ extra, (is.foldl (passBody env format usedBits) st).2 = st.2 ++ extra := by
  induction is generalizing st with
  | nil => exact ⟨[], by simp⟩
  | cons i is ih =>
    obtain ⟨e2, he2⟩ := ih (passBody env format usedBits st i)
    obtain ⟨e1, he1⟩ := passBody_prefix env format usedBits i st
    exact ⟨e1 ++ e2, by rw [List.foldl_cons, he2, he1, List.append_assoc]⟩

/-- The multi-pass path always issues the stencil clear. -/
theorem multiPass_clears (env : Env) (self : FramebufferManagerD3D11)
    (dstBuffer : VirtualFramebuffer) (usedBits values : Nat) :
    Cmd.ClearStencil 0 ∈ (multiPass env self dstBuffer usedBits values).cmds := by
  obtain ⟨extra, he⟩ := foldl_passBody_prefix env dstBuffer.format usedBits
    (doublingIndices values 1 Nat.one_pos)
    ((ensureShaders env self).1.stencilMaskStates_,
      (ensureShaders env self).2 ++ setupCmds (ensureShaders env self).1 dstBuffer)
  obtain ⟨_, _, p3, _⟩ := preLoop_spec env self dstBuffer OMState.unknown
  simp only [multiPass, passLoop]
  rw [he]
  exact List.mem_append_left _ (List.mem_append_left _ p3)

/-- The indices of the pass loop whose bit is used, by bit position. -/
theorem usedIndices_eq (usedBits width values : Nat)
    (hv : doublingIndices values 1 Nat.one_pos = (List.range width).map (fun k => 2 ^ k)) :
    (doublingIndices values 1 Nat.one_pos).filter (fun i => decide (usedBits &&& i ≠ 0)) =
      ((List.range width).filter (fun k => usedBits.testBit k)).map (fun k => 2 ^ k) := by
  rw [hv, List.filter_map]
  congr 1
  apply List.filter_congr
  intro k _
  simp only [Function.comp]
  by_cases h : usedBits.testBit k = true
  · simp [h, (and_two_pow_ne_zero usedBits k).2 h]
  · have h0 : ¬ usedBits &&& 2 ^ k ≠ 0 := fun hne => h ((and_two_pow_ne_zero usedBits k).1 hne)
    simp only [ne_eq, Decidable.not_not] at h0
    simp [h, h0]

/-- The passes of a call whose destination and source are resolved, for a
device that creates the states it is asked for: one per used index of the loop,
in loop order. -/
theorem reconstructionPasses_resolved (env : Env) (self : FramebufferManagerD3D11)
    (addr : Nat) (size : Int) (skipZero : Bool) (dstBuffer : VirtualFramebuffer)
    (src : List Nat) (usedBits values : Nat)
    (h1 : env.MayIntersectFramebuffer addr = true)
    (h2 : findDstBuffer env self.vfbs_ addr = some dstBuffer)
    (h3 : env.GetPointer addr = some src)
    (h4 : scanByFormat dstBuffer src = some (usedBits, values))
    (hk : MaskStatesKeyed self.stencilMaskStates_)
    (hc : ∀ m, env.CreateDepthStencilState (maskStateDesc m) = true) :
    reconstructionPasses (NotifyStencilUpload env self addr size skipZero).cmds =
      ((doublingIndices values 1 Nat.one_pos).filter
        (fun i => decide (usedBits &&& i ≠ 0))).map (maskAndValue dstBuffer.format) := by
  rw [NotifyStencilUpload_resolved env self addr size skipZero dstBuffer src usedBits values
    h1 h2 h3 h4]
  by_cases hu : usedBits = 0
  · subst hu
    have hnil : (doublingIndices values 1 Nat.one_pos).filter
        (fun i => decide (0 &&& i ≠ 0)) = [] := by
      simp
    rw [hnil]
    cases skipZero <;> rfl
  · rw [if_neg hu]
    obtain ⟨_, _, _, hd⟩ := multiPass_spec env self dstBuffer usedBits values hk hc
    have hsnd : ∀ l : List OMState,
        l.filterMap stencilPassOf = (l.map drawSummary).filterMap Prod.snd := by
      intro l
      rw [List.filterMap_map]
      rfl
    unfold reconstructionPasses
    rw [hsnd, hd, List.filterMap_map]
    exact List.filterMap_eq_map _ ▸ rfl

/-- Bits of the result of the replace operation. -/
theorem stencilReplace_testBit (stencil mask value b : Nat) :
    (stencilReplace stencil mask value).testBit b =
      ((stencil.testBit b && (decide (b < 8) ^^ mask.testBit b)) ||
        (value.testBit b && mask.testBit b)) := by
  have e : (0xFF : Nat) = 2 ^ 8 - 1 := by norm_num
  unfold stencilReplace
  rw [Nat.testBit_or, Nat.testBit_and, Nat.testBit_and, Nat.testBit_xor, e,
    Nat.testBit_two_pow_sub_one]

/-- Replay of the passes for the bit positions below `n`, the pass of position
`k` having value `2 ^ (k + s)` and a mask that holds bit `k + s` and none of the
bits `s .. k + s - 1`: bit `b` of the stencil ends up set exactly when
`s ≤ b < s + n` and bit `b - s` is set both in the pixel's alpha and in the
used bits. -/
theorem replayPasses_testBit (alpha usedBits s : Nat) (maskOf : Nat → Nat) (n : Nat)
    (hs : n + s ≤ 8)
    (hm1 : ∀ k, k < n → (maskOf k).testBit (k + s) = true)
    (hm2 : ∀ k, k < n → ∀ b, s ≤ b → b < k + s → (maskOf k).testBit b = false)
    (b : Nat) :
    (replayPasses (alpha <<< s)
        (((List.range n).filter (fun k => usedBits.testBit k)).map
          (fun k => (maskOf k, 2 ^ (k + s))))).testBit b =
      (decide (s ≤ b) && decide (b < s + n) && alpha.testBit (b - s) &&
        usedBits.testBit (b - s)) := by
  induction n generalizing b with
  | zero =>
    have : ¬ (s ≤ b ∧ b < s + 0) := by omega
    by_cases h1 : s ≤ b <;> by_cases h2 : b < s + 0 <;>
      first | omega | simp [replayPasses, h1, h2]
  | succ n ih =>
    have ih := fun b => ih (by omega) (fun k hk => hm1 k (by omega))
      (fun k hk => hm2 k (by omega)) b
    have hsel : (alpha <<< s &&& 2 ^ (n + s) ≠ 0) ↔ alpha.testBit n = true := by
      rw [and_two_pow_ne_zero, Nat.testBit_shiftLeft]
      have h1 : n + s ≥ s := by omega
      have h2 : n + s - s = n := by omega
      simp [h1, h2]
    unfold replayPasses at ih ⊢
    rw [List.range_succ, List.filter_append, List.map_append, List.foldl_append]
    by_cases hu : usedBits.testBit n = true
    · by_cases ha : alpha.testBit n = true
      · have hsel1 := hsel.2 ha
        simp only [List.filter_cons, List.filter_nil, hu, if_true, List.map_cons, List.map_nil,
          List.foldl_cons, List.foldl_nil]
        rw [if_pos hsel1, stencilReplace_testBit, ih]
        by_cases hb : b = n + s
        · subst hb
          have e : n + s - s = n := by omega
          have h1 : s ≤ n + s := by omega
          have h2 : n + s < s + (n + 1) := by omega
          simp [hm1 n (Nat.lt_succ_self n), Nat.testBit_two_pow_self, e, ha, hu, h1, h2]
        · have hv : (2 ^ (n + s)).testBit b = false :=
            Nat.testBit_two_pow_of_ne (fun h => hb h.symm)
          rw [hv, Bool.false_and, Bool.or_false]
          by_cases h1 : s ≤ b
          · by_cases h2 : b < s + n
            · have h3 : b < s + (n + 1) := by omega
              have h4 : b < 8 := by omega
              have h5 := hm2 n (Nat.lt_succ_self n) b h1 (by omega)
              simp [h1, h2, h3, h4, h5]
            · have h3 : ¬ b < s + (n + 1) := by omega
              simp [h1, h2, h3]
          · simp [h1]
      · have hsel1 : ¬ (alpha <<< s &&& 2 ^ (n + s) ≠ 0) := fun h => ha (hsel.1 h)
        simp only [List.filter_cons, List.filter_nil, hu, if_true, List.map_cons, List.map_nil,
          List.foldl_cons, List.foldl_nil]
        rw [if_neg hsel1, ih]
        by_cases hb : b = n + s
        · subst hb
          have e : n + s - s = n := by omega
          have h2 : ¬ n + s < s + n := by omega
          simp [e, ha, h2]
        · have h3 : b < s + (n + 1) ↔ b < s + n := by omega
          simp [h3]
    · simp only [List.filter_cons, List.filter_nil, hu, Bool.false_eq_true, if_false,
        List.map_nil, List.foldl_nil]
      rw [ih]
      by_cases hb : b = n + s
      · subst hb
        have e : n + s - s = n := by omega
        have h2 : ¬ n + s < s + n := by omega
        simp [e, hu, h2]
      · have h3 : b < s + (n + 1) ↔ b < s + n := by omega
        simp [h3]

/-- The replayed stencil, shifted down, is the pixel's alpha, as soon as the
alpha fits the width and each of its bits is a used bit. -/
theorem replayPasses_roundTrip (alpha usedBits s : Nat) (maskOf : Nat → Nat) (n : Nat)
    (hs : n + s ≤ 8)
    (hm1 : ∀ k, k < n → (maskOf k).testBit (k + s) = true)
    (hm2 : ∀ k, k < n → ∀ b, s ≤ b → b < k + s → (maskOf k).testBit b = false)
    (hlt : alpha < 2 ^ n)
    (hsub : ∀ k, k < n → alpha.testBit k = true → usedBits.testBit k = true) :
    replayPasses (alpha <<< s)
        (((List.range n).filter (fun k => usedBits.testBit k)).map
          (fun k => (maskOf k, 2 ^ (k + s)))) >>> s = alpha := by
  apply Nat.eq_of_testBit_eq
  intro b
  rw [Nat.testBit_shiftRight, replayPasses_testBit alpha usedBits s maskOf n hs hm1 hm2]
  have e : s + b - s = b := by omega
  have h1 : s ≤ s + b := by omega
  rw [e]
  by_cases hb : b < n
  · have h2 : s + b < s + n := by omega
    by_cases ha : alpha.testBit b = true
    · simp [h1, h2, ha, hsub b hb ha]
    · simp [h1, h2, ha]
  · have h2 : ¬ s + b < s + n := by omega
    have : alpha.testBit b = false :=
      Nat.testBit_lt_two_pow
        (Nat.lt_of_lt_of_le hlt (Nat.pow_le_pow_right (by decide) (by omega)))
    simp [h2, this]

/-- The passes of a 5551 upload, by bit position. -/
theorem passes_5551 (usedBits : Nat) :
    ((doublingIndices 2 1 Nat.one_pos).filter (fun i => decide (usedBits &&& i ≠ 0))).map
        (maskAndValue .GE_FORMAT_5551) =
      ((List.range 1).filter (fun k => usedBits.testBit k)).map
        (fun k => ((maskAndValue .GE_FORMAT_5551 (2 ^ k)).1, 2 ^ (k + 7))) := by
  rw [usedIndices_eq usedBits 1 2 (by rw [doublingIndices_two]; rfl), List.map_map]
  apply List.map_congr_left
  intro k hk
  have hk1 : k < 1 := List.mem_range.1 (List.mem_of_mem_filter hk)
  interval_cases k
  rfl

/-- The passes of a 4444 upload, by bit position. -/
theorem passes_4444 (usedBits : Nat) :
    ((doublingIndices 16 1 Nat.one_pos).filter (fun i => decide (usedBits &&& i ≠ 0))).map
        (maskAndValue .GE_FORMAT_4444) =
      ((List.range 4).filter (fun k => usedBits.testBit k)).map
        (fun k => ((maskAndValue .GE_FORMAT_4444 (2 ^ k)).1, 2 ^ (k + 4))) := by
  rw [usedIndices_eq usedBits 4 16 (by rw [doublingIndices_sixteen]; rfl), List.map_map]
  apply List.map_congr_left
  intro k hk
  have hk1 : k < 4 := List.mem_range.1 (List.mem_of_mem_filter hk)
  interval_cases k <;> rfl

/-- The passes of an 8888 upload, by bit position. -/
theorem passes_8888 (usedBits : Nat) :
    ((doublingIndices 256 1 Nat.one_pos).filter (fun i => decide (usedBits &&& i ≠ 0))).map
        (maskAndValue .GE_FORMAT_8888) =
      ((List.range 8).filter (fun k => usedBits.testBit k)).map
        (fun k => (2 ^ k, 2 ^ k)) := by
  rw [usedIndices_eq usedBits 8 256 (by rw [doublingIndices_256]; rfl), List.map_map]
  apply List.map_congr_left
  intro k hk
  have hk1 : k < 8 := List.mem_range.1 (List.mem_of_mem_filter hk)
  interval_cases k <;> rfl

/-- Every alpha bit of a scanned 5551 pixel is a used bit. -/
theorem sourceAlpha_5551_used (src : List Nat) (numPixels j : Nat)
    (hj : j < 2 * (numPixels / 2)) (k : Nat) (hk : k < 1)
    (ha : (readU16 src j >>> 15).testBit k = true) :
    (StencilBits5551 src numPixels).testBit k = true := by
  have hk0 : k = 0 := by omega
  subst hk0
  rw [Nat.testBit_shiftRight] at ha
  rw [StencilBits5551_eq, if_pos ⟨j, hj, ha⟩]
  rfl

/-- Every alpha bit of a scanned 4444 pixel is a used bit. -/
theorem sourceAlpha_4444_used (src : List Nat) (numPixels j : Nat)
    (hj : j < 2 * (numPixels / 2)) (k : Nat) (hk : k < 4)
    (ha : (readU16 src j >>> 12).testBit k = true) :
    (StencilBits4444 src numPixels).testBit k = true := by
  rw [Nat.testBit_shiftRight] at ha
  refine (StencilBits4444_testBit src numPixels k hk).2 ⟨j / 2, by omega, ?_⟩
  rcases Nat.mod_two_eq_zero_or_one j with hm | hm
  · left
    have e : 2 * (j / 2) = j := by omega
    rw [readU32_testBit, if_pos (by omega), e]
    exact ha
  · right
    have e : 2 * (j / 2) + 1 = j := by omega
    have e2 : 28 + k - 16 = 12 + k := by omega
    rw [readU32_testBit, if_neg (by omega), e, e2]
    exact ha

/-- Every alpha bit of a scanned 8888 pixel is a used bit. -/
theorem sourceAlpha_8888_used (src : List Nat) (numPixels j : Nat)
    (hj : j < numPixels) (k : Nat) (hk : k < 8)
    (ha : (readU32 src j >>> 24).testBit k = true) :
    (StencilBits8888 src numPixels).testBit k = true := by
  rw [Nat.testBit_shiftRight] at ha
  exact (StencilBits8888_testBit src numPixels k hk).2 ⟨j, hj, ha⟩

theorem drawStates_length (s : OMState) (cmds : List Cmd) :
    (drawStates s cmds).length = (cmds.filter Cmd.isDraw).length := by
  induction cmds generalizing s with
  | nil => rfl
  | cons c cs ih =>
    by_cases hc : c.isDraw = true
    · simp [drawStates, hc, ih]
    · simp [drawStates, hc, ih]

/-- The pass loop over any list of indices, whatever the table holds and the
device does: calls are only appended, and the draws appended are one per used
index, in order, each with the reference value of its index. -/
theorem foldl_passBody_refs (env : Env) (format : GEBufferFormat) (usedBits : Nat)
    (is : List Nat) (st : (Nat → Option DepthStencilDesc) × List Cmd) :
    ∃ extra, (is.foldl (passBody env format usedBits) st).2 = st.2 ++ extra ∧
      ∀ s : OMState,
        (drawStates s extra).map drawRef =
          (is.filter (fun i => decide (usedBits &&& i ≠ 0))).map
            (fun i => some (maskAndValue format i).2) := by
  induction is generalizing st with
  | nil => exact ⟨[], by simp, fun s => by simp [drawStates]⟩
  | cons i is ih =>
    obtain ⟨e2, he2, hd2⟩ := ih (passBody env format usedBits st i)
    have h1 : ∃ e1, (passBody env format usedBits st i).2 = st.2 ++ e1 ∧
        ∀ s : OMState, (drawStates s e1).map drawRef =
          if usedBits &&& i = 0 then [] else [some (maskAndValue format i).2] := by
      by_cases hu : usedBits &&& i = 0
      · exact ⟨[], by simp [passBody, hu], fun s => by simp [hu, drawStates]⟩
      · by_cases hnone : st.1 (maskAndValue format i).1 = none
        · exact ⟨[.CreateDepthStencilState (maskStateDesc (maskAndValue format i).1)
              (env.CreateDepthStencilState (maskStateDesc (maskAndValue format i).1)),
            .OMSetDepthStencilState (slotState
              ((if env.CreateDepthStencilState
                  (maskStateDesc (maskAndValue format i).1) = true
                then Function.update st.1 (maskAndValue format i).1
                  (some (maskStateDesc (maskAndValue format i).1))
                else st.1) (maskAndValue format i).1))
              (maskAndValue format i).2, .Draw 4 0],
            by simp [passBody, hu, hnone],
            fun s => by simp [hu, drawStates, Cmd.isDraw, OMState.exec, drawRef]⟩
        · exact ⟨[.OMSetDepthStencilState (slotState (st.1 (maskAndValue format i).1))
              (maskAndValue format i).2, .Draw 4 0],
            by simp [passBody, hu, hnone],
            fun s => by simp [hu, drawStates, Cmd.isDraw, OMState.exec, drawRef]⟩
    obtain ⟨e1, he1, hd1⟩ := h1
    refine ⟨e1 ++ e2, by rw [List.foldl_cons, he2, he1, List.append_assoc], ?_⟩
    intro s
    rw [drawStates_append, List.map_append, hd1, hd2]
    by_cases hu : usedBits &&& i = 0
    · simp [hu]
    · simp [hu]

/-- The draws of the multi-pass path: one per used index below `values`, in
loop order, each with the reference value of its index. -/
theorem multiPass_refs (env : Env) (self : FramebufferManagerD3D11)
    (dstBuffer : VirtualFramebuffer) (usedBits values : Nat) :
    (drawStates OMState.unknown (multiPass env self dstBuffer usedBits values).cmds).map
        drawRef =
      ((doublingIndices values 1 Nat.one_pos).filter
          (fun i => decide (usedBits &&& i ≠ 0))).map
        (fun i => some (maskAndValue dstBuffer.format i).2) := by
  obtain ⟨extra, he, hd⟩ := foldl_passBody_refs env dstBuffer.format usedBits
    (doublingIndices values 1 Nat.one_pos)
    ((ensureShaders env self).1.stencilMaskStates_,
      (ensureShaders env self).2 ++ setupCmds (ensureShaders env self).1 dstBuffer)
  obtain ⟨p1, _, _, _⟩ := preLoop_spec env self dstBuffer OMState.unknown
  have hcmds : (multiPass env self dstBuffer usedBits values).cmds =
      ((ensureShaders env self).2 ++ setupCmds (ensureShaders env self).1 dstBuffer) ++
        (extra ++ [Cmd.RebindFramebuffer]) := by
    simp only [multiPass, passLoop]
    rw [he, List.append_assoc]
  rw [hcmds, drawStates_append, p1, List.nil_append, drawStates_append, List.map_append, hd]
  simp [drawStates, Cmd.isDraw]

/-- The multi-pass path for the bound 256, with the indices of its loop
written out. -/
theorem multiPass_256 (env : Env) (self : FramebufferManagerD3D11)
    (dstBuffer : VirtualFramebuffer) (usedBits : Nat) :
    multiPass env self dstBuffer usedBits 256 =
      { ret := true
        self := { (ensureShaders env self).1 with
          stencilMaskStates_ := ([1, 2, 4, 8, 16, 32, 64, 128].foldl
            (passBody env dstBuffer.format usedBits)
            ((ensureShaders env self).1.stencilMaskStates_,
              (ensureShaders env self).2 ++
                setupCmds (ensureShaders env self).1 dstBuffer)).1 }
        cmds := ([1, 2, 4, 8, 16, 32, 64, 128].foldl
            (passBody env dstBuffer.format usedBits)
            ((ensureShaders env self).1.stencilMaskStates_,
              (ensureShaders env self).2 ++
                setupCmds (ensureShaders env self).1 dstBuffer)).2 ++
          [.RebindFramebuffer] } := by
  simp only [multiPass, passLoop, doublingIndices_256]

/-! ## The scanners: results -/

/-- C1. Bit `i` (`i < 8`) of the result of `StencilBits8888` is set exactly when
one of the `numPixels` pixels has bit `24 + i` set. In particular the result is
0 when every pixel has a zero top byte, and bit 6 is set as soon as one pixel
has top byte `0x40`, whatever the others hold. The result has no bit above
bit 7. -/
theorem StencilBits8888_spec (ptr8 : List Nat) (numPixels : Nat) :
    (∀ i, i < 8 →
      ((StencilBits8888 ptr8 numPixels).testBit i = true ↔
        ∃ j, j < numPixels ∧ (readU32 ptr8 j).testBit (24 + i) = true)) ∧
    ((∀ j, j < numPixels → readU32 ptr8 j >>> 24 = 0) →
      StencilBits8888 ptr8 numPixels = 0) ∧
    ((∃ j, j < numPixels ∧ readU32 ptr8 j >>> 24 = 0x40) →
      (StencilBits8888 ptr8 numPixels).testBit 6 = true) ∧
    StencilBits8888 ptr8 numPixels < 256 := by
  refine ⟨fun i hi => StencilBits8888_testBit ptr8 numPixels i hi, ?_, ?_,
    StencilBits8888_lt ptr8 numPixels⟩
  · intro hz
    apply Nat.zero_of_testBit_eq_false
    intro i
    by_cases hi : i < 8
    · rw [Bool.eq_false_iff]
      intro hset
      obtain ⟨j, hj, hb⟩ := (StencilBits8888_testBit ptr8 numPixels i hi).1 hset
      have h0 := hz j hj
      rw [← Nat.testBit_shiftRight, h0] at hb
      simp at hb
    · apply Nat.testBit_lt_two_pow
      have h1 := StencilBits8888_lt ptr8 numPixels
      have h2 : 2 ^ 8 ≤ 2 ^ i := Nat.pow_le_pow_right (by decide) (by omega)
      omega
  · rintro ⟨j, hj, h40⟩
    refine (StencilBits8888_testBit ptr8 numPixels 6 (by decide)).2 ⟨j, hj, ?_⟩
    rw [← Nat.testBit_shiftRight, h40]
    decide

/-- Witness for C1: a two-pixel buffer whose first pixel has top byte `0x40`. -/
theorem StencilBits8888_spec_witness :
    (StencilBits8888 [0, 0, 0, 0x40, 1, 2, 3, 0] 2).testBit 6 = true :=
  (StencilBits8888_spec [0, 0, 0, 0x40, 1, 2, 3, 0] 2).2.2.1 ⟨0, by decide, by decide⟩

/-- C2, as stated, fails: with `numPixels = 1` no word is scanned, so a single
pixel with its top bit set is missed. -/
theorem StencilBits5551_odd_counterexample :
    (∃ j, j < 1 ∧ (readU16 [0x00, 0x80] j).testBit 15 = true) ∧
      StencilBits5551 [0x00, 0x80] 1 = 0 := by
  decide

/-- C2, amended. `StencilBits5551` returns 1 if one of the first
`2 * (numPixels / 2)` pixels has bit 15 set and 0 otherwise; when `numPixels`
is even these are all `numPixels` pixels. -/
theorem StencilBits5551_spec (ptr8 : List Nat) (numPixels : Nat) :
    ((∃ j, j < 2 * (numPixels / 2) ∧ (readU16 ptr8 j).testBit 15 = true) →
      StencilBits5551 ptr8 numPixels = 1) ∧
    ((¬ ∃ j, j < 2 * (numPixels / 2) ∧ (readU16 ptr8 j).testBit 15 = true) →
      StencilBits5551 ptr8 numPixels = 0) ∧
    (numPixels % 2 = 0 →
      (StencilBits5551 ptr8 numPixels = 1 ↔
        ∃ j, j < numPixels ∧ (readU16 ptr8 j).testBit 15 = true)) := by
  have hloop := StencilBits5551_eq ptr8 numPixels
  refine ⟨fun h => by rw [hloop, if_pos h], fun h => by rw [hloop, if_neg h], ?_⟩
  intro heven
  have e : 2 * (numPixels / 2) = numPixels := by omega
  rw [hloop, e]
  constructor
  · intro h
    by_contra hn
    rw [if_neg hn] at h
    exact absurd h (by decide)
  · intro h
    rw [if_pos h]

/-- Witness for C2 (amended): four pixels, the third with its top bit set. -/
theorem StencilBits5551_spec_witness :
    StencilBits5551 [1, 0, 2, 0, 0, 0x80, 3, 0] 4 = 1 :=
  (StencilBits5551_spec [1, 0, 2, 0, 0, 0x80, 3, 0] 4).1 ⟨2, by decide, by decide⟩

/-- C3. Bit `k` (`k < 4`) of the result of `StencilBits4444` is set exactly when
one of the `numPixels / 2` scanned words has bit `12 + k` or bit `28 + k` set,
and the result has no bit above bit 3: it is the OR of the alpha nibbles of all
scanned words. Two pixels with alpha nibbles `0001` and `0010` give `0011`, whatever their
colour bits. -/
theorem StencilBits4444_spec (ptr8 : List Nat) (numPixels : Nat) :
    (∀ k, k < 4 →
      ((StencilBits4444 ptr8 numPixels).testBit k = true ↔
        ∃ j, j < numPixels / 2 ∧
          ((readU32 ptr8 j).testBit (12 + k) = true ∨
            (readU32 ptr8 j).testBit (28 + k) = true))) ∧
    StencilBits4444 ptr8 numPixels < 16 ∧
    (readU16 ptr8 0 >>> 12 = 1 → readU16 ptr8 1 >>> 12 = 2 →
      StencilBits4444 ptr8 2 = 3) := by
  refine ⟨fun k hk => StencilBits4444_testBit ptr8 numPixels k hk,
    StencilBits4444_lt ptr8 numPixels, ?_⟩
  intro h1 h2
  have hlt0 := readU16_lt ptr8 0
  have hlt1 := readU16_lt ptr8 1
  have hword := readU32_eq_readU16 ptr8 0
  rw [Nat.shiftRight_eq_div_pow] at h1 h2
  have e15 : (0xF : Nat) = 2 ^ 4 - 1 := by norm_num
  have hlo : (readU32 ptr8 0 >>> 12) &&& 0xF = 1 := by
    rw [e15, Nat.and_pow_two_sub_one_eq_mod, Nat.shiftRight_eq_div_pow]
    simp only [Nat.mul_zero, Nat.zero_add] at hword
    omega
  have hhi : readU32 ptr8 0 >>> 28 = 2 := by
    rw [Nat.shiftRight_eq_div_pow]
    simp only [Nat.mul_zero, Nat.zero_add] at hword
    omega
  have hbits : orWords ptr8 (2 / 2) 0 0 = readU32 ptr8 0 := by
    simp [orWords]
  unfold StencilBits4444
  simp only [hbits, hlo, hhi]
  decide

/-- Witness for C3: pixels `0x1ABC` and `0x2DEF`. -/
theorem StencilBits4444_spec_witness :
    StencilBits4444 [0xBC, 0x1A, 0xEF, 0x2D] 2 = 3 :=
  (StencilBits4444_spec [0xBC, 0x1A, 0xEF, 0x2D] 2).2.2 (by decide) (by decide)

/-! ## `NotifyStencilUpload`: results -/

/-- C6. With `skipZero = true` and a source that scans to used bits 0, the call
returns false, issues no call at all (no draw, no stencil clear) and leaves the
manager, its cache table included, as it was. -/
theorem NotifyStencilUpload_skipZero (env : Env) (self : FramebufferManagerD3D11)
    (addr : Nat) (size : Int) (dstBuffer : VirtualFramebuffer) (src : List Nat)
    (values : Nat)
    (h1 : env.MayIntersectFramebuffer addr = true)
    (h2 : findDstBuffer env self.vfbs_ addr = some dstBuffer)
    (h3 : env.GetPointer addr = some src)
    (h4 : scanByFormat dstBuffer src = some (0, values)) :
    (NotifyStencilUpload env self addr size true).ret = false ∧
    (NotifyStencilUpload env self addr size true).cmds = [] ∧
    (NotifyStencilUpload env self addr size true).self = self := by
  rw [NotifyStencilUpload_resolved env self addr size true dstBuffer src 0 values h1 h2 h3 h4]
  exact ⟨rfl, rfl, rfl⟩

/-- Witness for C6: one 8888 pixel with alpha 0. -/
theorem NotifyStencilUpload_skipZero_witness :
    (NotifyStencilUpload (simpleEnv [1, 2, 3, 0])
        (freshManager [simpleBuffer .GE_FORMAT_8888 1 1]) 0 4 true).ret = false :=
  (NotifyStencilUpload_skipZero (simpleEnv [1, 2, 3, 0])
    (freshManager [simpleBuffer .GE_FORMAT_8888 1 1]) 0 4
    (simpleBuffer .GE_FORMAT_8888 1 1) [1, 2, 3, 0] 256 rfl rfl rfl (by decide)).1

/-- C7. With `skipZero = false` and a source that scans to used bits 0, the call
returns true and issues exactly one draw; at that draw the colour-write mask is
`0x8` (alpha only) and the bound depth-stencil state is the stock
depth-disabled stencil-write state with reference value 0. The cache table is
untouched. -/
theorem NotifyStencilUpload_zero_clear (env : Env) (self : FramebufferManagerD3D11)
    (addr : Nat) (size : Int) (dstBuffer : VirtualFramebuffer) (src : List Nat)
    (values : Nat)
    (h1 : env.MayIntersectFramebuffer addr = true)
    (h2 : findDstBuffer env self.vfbs_ addr = some dstBuffer)
    (h3 : env.GetPointer addr = some src)
    (h4 : scanByFormat dstBuffer src = some (0, values)) :
    (NotifyStencilUpload env self addr size false).ret = true ∧
    ((NotifyStencilUpload env self addr size false).cmds.filter Cmd.isDraw).length = 1 ∧
    drawStates OMState.unknown (NotifyStencilUpload env self addr size false).cmds =
      [{ blendColorMask := some 0x8
         depthStencil := some (DepthStencilState.depthDisabledStencilWrite, 0) }] ∧
    (NotifyStencilUpload env self addr size false).self = self := by
  rw [NotifyStencilUpload_resolved env self addr size false dstBuffer src 0 values h1 h2 h3 h4]
  exact ⟨rfl, rfl, rfl, rfl⟩

/-- Witness for C7: one 8888 pixel with alpha 0. -/
theorem NotifyStencilUpload_zero_clear_witness :
    (NotifyStencilUpload (simpleEnv [1, 2, 3, 0])
        (freshManager [simpleBuffer .GE_FORMAT_8888 1 1]) 0 4 false).ret = true :=
  (NotifyStencilUpload_zero_clear (simpleEnv [1, 2, 3, 0])
    (freshManager [simpleBuffer .GE_FORMAT_8888 1 1]) 0 4
    (simpleBuffer .GE_FORMAT_8888 1 1) [1, 2, 3, 0] 256 rfl rfl rfl (by decide)).1

/-- C9. The call returns true exactly when it issued a call that writes the
stencil attachment (a stencil clear or a draw); when it returns false it issued
no call at all and left the manager, its cache table included, as it was. -/
theorem NotifyStencilUpload_ret_iff (env : Env) (self : FramebufferManagerD3D11)
    (addr : Nat) (size : Int) (skipZero : Bool) :
    ((NotifyStencilUpload env self addr size skipZero).ret = true ↔
      ∃ c, c ∈ (NotifyStencilUpload env self addr size skipZero).cmds ∧
        c.modifiesStencil = true) ∧
    ((NotifyStencilUpload env self addr size skipZero).ret = false →
      (NotifyStencilUpload env self addr size skipZero).cmds = [] ∧
      (NotifyStencilUpload env self addr size skipZero).self = self) := by
  rcases NotifyStencilUpload_cases env self addr size skipZero with
    h | h | ⟨dstBuffer, usedBits, values, h⟩
  · rw [h]
    simp
  · rw [h]
    refine ⟨?_, by simp⟩
    simp only [true_iff]
    exact ⟨.Draw 4 0, by simp [zeroClearCmds], rfl⟩
  · rw [h]
    refine ⟨?_, ?_⟩
    · simp only [multiPass, true_iff]
      exact ⟨.ClearStencil 0, multiPass_clears env self dstBuffer usedBits values, rfl⟩
    · intro hf
      simp [multiPass] at hf

/-- Witness for C9: no tracked framebuffer, so the call returns false. -/
theorem NotifyStencilUpload_ret_iff_witness :
    (NotifyStencilUpload (simpleEnv []) (freshManager []) 0 0 false).cmds = [] :=
  ((NotifyStencilUpload_ret_iff (simpleEnv []) (freshManager []) 0 0 false).2 rfl).1

/-- C10. `StencilBits5551` returns 0 or 1, `StencilBits4444` at most `0x0F`,
`StencilBits8888` an 8-bit value; hence whenever the format switch of
`NotifyStencilUpload` yields `(usedBits, values)` for a stencil-bearing format,
`values` is 2, 16 or 256 according to the format and `usedBits < values`. -/
theorem usedBits_lt_values :
    (∀ ptr8 numPixels,
      StencilBits5551 ptr8 numPixels = 0 ∨ StencilBits5551 ptr8 numPixels = 1) ∧
    (∀ ptr8 numPixels, StencilBits4444 ptr8 numPixels ≤ 0x0F) ∧
    (∀ ptr8 numPixels, StencilBits8888 ptr8 numPixels ≤ 0xFF) ∧
    (∀ (dstBuffer : VirtualFramebuffer) (src : List Nat) (usedBits values : Nat),
      dstBuffer.format ≠ .GE_FORMAT_INVALID →
      scanByFormat dstBuffer src = some (usedBits, values) →
      values = 2 ^ stencilWidth dstBuffer.format ∧ usedBits < values) := by
  refine ⟨?_, ?_, ?_, ?_⟩
  · intro ptr8 numPixels
    have := StencilBits5551_le_one ptr8 numPixels
    omega
  · intro ptr8 numPixels
    have := StencilBits4444_lt ptr8 numPixels
    omega
  · intro ptr8 numPixels
    have := StencilBits8888_lt ptr8 numPixels
    omega
  · intro dstBuffer src usedBits values hfmt hscan
    unfold scanByFormat at hscan
    cases hf : dstBuffer.format <;> simp only [hf] at hscan hfmt
    · exact absurd hscan (by simp)
    · simp only [Option.some.injEq, Prod.mk.injEq] at hscan
      obtain ⟨hu, hv⟩ := hscan
      have := StencilBits5551_le_one src ((dstBuffer.fb_stride * dstBuffer.bufferHeight) % 2 ^ 32)
      subst hu hv
      exact ⟨rfl, by omega⟩
    · simp only [Option.some.injEq, Prod.mk.injEq] at hscan
      obtain ⟨hu, hv⟩ := hscan
      have := StencilBits4444_lt src ((dstBuffer.fb_stride * dstBuffer.bufferHeight) % 2 ^ 32)
      subst hu hv
      exact ⟨rfl, by omega⟩
    · simp only [Option.some.injEq, Prod.mk.injEq] at hscan
      obtain ⟨hu, hv⟩ := hscan
      have := StencilBits8888_lt src ((dstBuffer.fb_stride * dstBuffer.bufferHeight) % 2 ^ 32)
      subst hu hv
      exact ⟨rfl, by omega⟩
    · exact absurd rfl hfmt

/-- Witness for C10: a 4444 buffer of two pixels with alpha nibbles 1 and 2. -/
theorem usedBits_lt_values_witness :
    (16 : Nat) = 2 ^ stencilWidth (simpleBuffer .GE_FORMAT_4444 2 1).format ∧ 3 < 16 :=
  usedBits_lt_values.2.2.2 (simpleBuffer .GE_FORMAT_4444 2 1) [0xBC, 0x1A, 0xEF, 0x2D] 3 16
    (by decide) (by decide)

/-- C4, as stated, fails, in two ways. A 4444 image of three pixels (stride 3,
height 1) with alpha 1, 0, 2 scans to used bits 1, so the only pass is
`(0x11, 0x10)` and the replayed stencil of the last pixel is 0, not its alpha 2.
And when the device fails to create the state of a pass, the draw is made with
a null state: for one 8888 pixel of alpha 1 no pass writes the stencil and the
pixel reads back 0. -/
theorem stencil_round_trip_counterexample :
    ((2 : Nat) < (simpleBuffer .GE_FORMAT_4444 3 1).fb_stride *
        (simpleBuffer .GE_FORMAT_4444 3 1).bufferHeight ∧
      sourceAlpha .GE_FORMAT_4444 [0x00, 0x10, 0, 0, 0x00, 0x20] 2 = 2 ∧
      reconstructionPasses
        (NotifyStencilUpload (simpleEnv [0x00, 0x10, 0, 0, 0x00, 0x20])
          (freshManager [simpleBuffer .GE_FORMAT_4444 3 1]) 0 6 false).cmds =
        [(0x11, 0x10)] ∧
      replayPasses (sourceAlpha .GE_FORMAT_4444 [0x00, 0x10, 0, 0, 0x00, 0x20] 2 <<< 4)
        (reconstructionPasses
          (NotifyStencilUpload (simpleEnv [0x00, 0x10, 0, 0, 0x00, 0x20])
            (freshManager [simpleBuffer .GE_FORMAT_4444 3 1]) 0 6 false).cmds) >>> 4 = 0) ∧
    (sourceAlpha .GE_FORMAT_8888 [0, 0, 0, 1] 0 = 1 ∧
      (drawStates OMState.unknown
        (NotifyStencilUpload (failingEnv [0, 0, 0, 1])
          (freshManager [simpleBuffer .GE_FORMAT_8888 1 1]) 0 4 false).cmds).map
        (fun s => s.depthStencil) = [some (DepthStencilState.null, 1)] ∧
      replayPasses (sourceAlpha .GE_FORMAT_8888 [0, 0, 0, 1] 0 <<< 0)
        (reconstructionPasses
          (NotifyStencilUpload (failingEnv [0, 0, 0, 1])
            (freshManager [simpleBuffer .GE_FORMAT_8888 1 1]) 0 4 false).cmds) >>> 0 = 0) := by
  have hp : reconstructionPasses
      (NotifyStencilUpload (simpleEnv [0x00, 0x10, 0, 0, 0x00, 0x20])
        (freshManager [simpleBuffer .GE_FORMAT_4444 3 1]) 0 6 false).cmds =
      [(0x11, 0x10)] := by
    rw [reconstructionPasses_resolved (simpleEnv [0x00, 0x10, 0, 0, 0x00, 0x20])
      (freshManager [simpleBuffer .GE_FORMAT_4444 3 1]) 0 6 false
      (simpleBuffer .GE_FORMAT_4444 3 1) [0x00, 0x10, 0, 0, 0x00, 0x20] 1 16 rfl rfl rfl
      (by decide) (fun m desc h => by cases h) (fun _ => rfl), doublingIndices_sixteen]
    decide
  refine ⟨⟨by decide, by decide, hp, ?_⟩, by decide, ?_, ?_⟩
  · rw [hp]
    decide
  · rw [NotifyStencilUpload_resolved (failingEnv [0, 0, 0, 1])
      (freshManager [simpleBuffer .GE_FORMAT_8888 1 1]) 0 4 false
      (simpleBuffer .GE_FORMAT_8888 1 1) [0, 0, 0, 1] 1 256 rfl rfl rfl (by decide),
      if_neg (by decide), multiPass_256]
    rfl
  · rw [NotifyStencilUpload_resolved (failingEnv [0, 0, 0, 1])
      (freshManager [simpleBuffer .GE_FORMAT_8888 1 1]) 0 4 false
      (simpleBuffer .GE_FORMAT_8888 1 1) [0, 0, 0, 1] 1 256 rfl rfl rfl (by decide),
      if_neg (by decide), multiPass_256]
    rfl

/-- C4, amended. For a stencil-bearing destination and a device that creates
the states it is asked for, start from stencil 0 and apply, for each pass
`(mask, value)` issued by the call,
`stencil := (stencil AND NOT mask) OR (value AND mask)` on the pixels whose
alpha has the pass's bit set. For every pixel covered by the scanned words
(every pixel for 8888, the first `2 * (numPixels / 2)` for 5551 and 4444) the
top `w` bits of the final stencil are the pixel's `w`-bit alpha. -/
theorem stencil_round_trip (env : Env) (self : FramebufferManagerD3D11)
    (addr : Nat) (size : Int) (skipZero : Bool) (dstBuffer : VirtualFramebuffer)
    (src : List Nat) (j : Nat)
    (h1 : env.MayIntersectFramebuffer addr = true)
    (h2 : findDstBuffer env self.vfbs_ addr = some dstBuffer)
    (h3 : env.GetPointer addr = some src)
    (hk : MaskStatesKeyed self.stencilMaskStates_)
    (hc : ∀ m, env.CreateDepthStencilState (maskStateDesc m) = true)
    (hfmt : dstBuffer.format = .GE_FORMAT_5551 ∨ dstBuffer.format = .GE_FORMAT_4444 ∨
      dstBuffer.format = .GE_FORMAT_8888)
    (hj : j < scannedPixels dstBuffer.format
      ((dstBuffer.fb_stride * dstBuffer.bufferHeight) % 2 ^ 32)) :
    replayPasses
        (sourceAlpha dstBuffer.format src j <<< (8 - stencilWidth dstBuffer.format))
        (reconstructionPasses (NotifyStencilUpload env self addr size skipZero).cmds) >>>
          (8 - stencilWidth dstBuffer.format) =
      sourceAlpha dstBuffer.format src j := by
  rcases hfmt with hf | hf | hf
  · have h4 : scanByFormat dstBuffer src = some (StencilBits5551 src
        ((dstBuffer.fb_stride * dstBuffer.bufferHeight) % 2 ^ 32), 2) := by
      simp [scanByFormat, hf]
    rw [reconstructionPasses_resolved env self addr size skipZero dstBuffer src _ _
      h1 h2 h3 h4 hk hc, hf]
    rw [hf] at hj
    simp only [stencilWidth, sourceAlpha, scannedPixels] at hj ⊢
    rw [passes_5551]
    refine replayPasses_roundTrip _ _ 7 _ 1 (by decide) ?_ ?_ ?_
      (sourceAlpha_5551_used src _ j hj)
    · intro k hk1
      interval_cases k
      decide
    · intro k hk1 b hb1 hb2
      interval_cases k
      omega
    · have := readU16_lt src j
      rw [Nat.shiftRight_eq_div_pow]
      omega
  · have h4 : scanByFormat dstBuffer src = some (StencilBits4444 src
        ((dstBuffer.fb_stride * dstBuffer.bufferHeight) % 2 ^ 32), 16) := by
      simp [scanByFormat, hf]
    rw [reconstructionPasses_resolved env self addr size skipZero dstBuffer src _ _
      h1 h2 h3 h4 hk hc, hf]
    rw [hf] at hj
    simp only [stencilWidth, sourceAlpha, scannedPixels] at hj ⊢
    rw [passes_4444]
    refine replayPasses_roundTrip _ _ 4 _ 4 (by decide) ?_ ?_ ?_
      (sourceAlpha_4444_used src _ j hj)
    · intro k hk1
      interval_cases k <;> decide
    · intro k hk1 b hb1 hb2
      interval_cases k <;> interval_cases b <;> decide
    · have := readU16_lt src j
      rw [Nat.shiftRight_eq_div_pow]
      omega
  · have h4 : scanByFormat dstBuffer src = some (StencilBits8888 src
        ((dstBuffer.fb_stride * dstBuffer.bufferHeight) % 2 ^ 32), 256) := by
      simp [scanByFormat, hf]
    rw [reconstructionPasses_resolved env self addr size skipZero dstBuffer src _ _
      h1 h2 h3 h4 hk hc, hf]
    rw [hf] at hj
    simp only [stencilWidth, sourceAlpha, scannedPixels] at hj ⊢
    rw [passes_8888]
    have hlt : readU32 src j >>> 24 < 2 ^ 8 := by
      have := readU32_lt src j
      rw [Nat.shiftRight_eq_div_pow]
      omega
    have hrt := replayPasses_roundTrip (readU32 src j >>> 24)
      (StencilBits8888 src ((dstBuffer.fb_stride * dstBuffer.bufferHeight) % 2 ^ 32))
      0 (fun k => 2 ^ k) 8 (by decide)
      (fun k _ => by simp [Nat.testBit_two_pow_self])
      (fun k _ b _ hb => Nat.testBit_two_pow_of_ne (by omega))
      hlt (sourceAlpha_8888_used src _ j hj)
    simpa using hrt

/-- A table with no entry is keyed. -/
theorem MaskStatesKeyed_empty : MaskStatesKeyed (fun _ => none) := by
  intro m desc h
  cases h

/-- Witness for C4 (amended): the second pixel of a two-pixel 4444 image with
alpha nibbles 1 and 2. -/
theorem stencil_round_trip_witness :
    replayPasses
        (sourceAlpha .GE_FORMAT_4444 [0xBC, 0x1A, 0xEF, 0x2D] 1 <<< 4)
        (reconstructionPasses
          (NotifyStencilUpload (simpleEnv [0xBC, 0x1A, 0xEF, 0x2D])
            (freshManager [simpleBuffer .GE_FORMAT_4444 2 1]) 0 4 true).cmds) >>> 4 =
      sourceAlpha .GE_FORMAT_4444 [0xBC, 0x1A, 0xEF, 0x2D] 1 :=
  stencil_round_trip (simpleEnv [0xBC, 0x1A, 0xEF, 0x2D])
    (freshManager [simpleBuffer .GE_FORMAT_4444 2 1]) 0 4 true
    (simpleBuffer .GE_FORMAT_4444 2 1) [0xBC, 0x1A, 0xEF, 0x2D] 1 rfl rfl rfl
    MaskStatesKeyed_empty (fun _ => rfl) (Or.inr (Or.inl rfl)) (by decide)

/-- C8, as stated, fails when the device does not create the state of a pass:
the result of `CreateDepthStencilState` is not looked at, the slot stays null
and the draw is made with a null state. For two 8888 pixels of alpha 1 and 4
(used bits `0b101`) and a failing device the two draws are bound with no write
mask at all, not with masks `0x01` and `0x04`. -/
theorem NotifyStencilUpload_8888_draws_counterexample :
    StencilBits8888 [0, 0, 0, 1, 0, 0, 0, 4] 2 = 5 ∧
    (drawStates OMState.unknown
        (NotifyStencilUpload (failingEnv [0, 0, 0, 1, 0, 0, 0, 4])
          (freshManager [simpleBuffer .GE_FORMAT_8888 2 1]) 0 8 false).cmds).map
      (fun s => s.depthStencil) =
        [some (DepthStencilState.null, 1), some (DepthStencilState.null, 4)] ∧
    (drawStates OMState.unknown
        (NotifyStencilUpload (failingEnv [0, 0, 0, 1, 0, 0, 0, 4])
          (freshManager [simpleBuffer .GE_FORMAT_8888 2 1]) 0 8 false).cmds).map
      stencilPassOf ≠ [some (1, 1), some (4, 4)] := by
  rw [NotifyStencilUpload_resolved (failingEnv [0, 0, 0, 1, 0, 0, 0, 4])
    (freshManager [simpleBuffer .GE_FORMAT_8888 2 1]) 0 8 false
    (simpleBuffer .GE_FORMAT_8888 2 1) [0, 0, 0, 1, 0, 0, 0, 4] 5 256 rfl rfl rfl (by decide),
    if_neg (by decide), multiPass_256]
  exact ⟨by decide, rfl, by decide⟩

/-- C8, amended. For an 8888 destination whose source scans to nonzero used
bits `u`, the call returns true and its draws are exactly one per set bit of
`u`, in ascending bit order, the draw for bit value `2 ^ k` having reference
value `2 ^ k`; when the device creates the states it is asked for, that draw is
made with a state of write mask `2 ^ k`. For `u = 0b101` these are two draws,
with masks `0x01` then `0x04`. -/
theorem NotifyStencilUpload_8888_draws (env : Env) (self : FramebufferManagerD3D11)
    (addr : Nat) (size : Int) (skipZero : Bool) (dstBuffer : VirtualFramebuffer)
    (src : List Nat)
    (h1 : env.MayIntersectFramebuffer addr = true)
    (h2 : findDstBuffer env self.vfbs_ addr = some dstBuffer)
    (h3 : env.GetPointer addr = some src)
    (hk : MaskStatesKeyed self.stencilMaskStates_)
    (hfmt : dstBuffer.format = .GE_FORMAT_8888)
    (hu : StencilBits8888 src ((dstBuffer.fb_stride * dstBuffer.bufferHeight) % 2 ^ 32) ≠ 0) :
    (NotifyStencilUpload env self addr size skipZero).ret = true ∧
    (drawStates OMState.unknown (NotifyStencilUpload env self addr size skipZero).cmds).map
        drawRef =
      ((List.range 8).filter (fun k =>
          (StencilBits8888 src
            ((dstBuffer.fb_stride * dstBuffer.bufferHeight) % 2 ^ 32)).testBit k)).map
        (fun k => some (2 ^ k)) ∧
    ((∀ m, env.CreateDepthStencilState (maskStateDesc m) = true) →
      (drawStates OMState.unknown (NotifyStencilUpload env self addr size skipZero).cmds).map
          stencilPassOf =
        ((List.range 8).filter (fun k =>
            (StencilBits8888 src
              ((dstBuffer.fb_stride * dstBuffer.bufferHeight) % 2 ^ 32)).testBit k)).map
          (fun k => some (2 ^ k, 2 ^ k)) ∧
      (StencilBits8888 src ((dstBuffer.fb_stride * dstBuffer.bufferHeight) % 2 ^ 32) = 5 →
        (drawStates OMState.unknown (NotifyStencilUpload env self addr size skipZero).cmds).map
          stencilPassOf = [some (1, 1), some (4, 4)])) := by
  have h4 : scanByFormat dstBuffer src = some (StencilBits8888 src
      ((dstBuffer.fb_stride * dstBuffer.bufferHeight) % 2 ^ 32), 256) := by
    simp [scanByFormat, hfmt]
  have hres := NotifyStencilUpload_resolved env self addr size skipZero dstBuffer src _ _
    h1 h2 h3 h4
  rw [if_neg hu] at hres
  have hp := passes_8888
    (StencilBits8888 src ((dstBuffer.fb_stride * dstBuffer.bufferHeight) % 2 ^ 32))
  refine ⟨by rw [hres]; rfl, ?_, ?_⟩
  · rw [hres, multiPass_refs, hfmt]
    calc _ = ((((doublingIndices 256 1 Nat.one_pos).filter (fun i => decide
              (StencilBits8888 src ((dstBuffer.fb_stride * dstBuffer.bufferHeight) % 2 ^ 32)
                &&& i ≠ 0))).map (maskAndValue .GE_FORMAT_8888)).map Prod.snd).map some := by
            rw [List.map_map, List.map_map]; rfl
      _ = _ := by rw [hp, List.map_map, List.map_map]; rfl
  · intro hc
    have hmain : (drawStates OMState.unknown
        (NotifyStencilUpload env self addr size skipZero).cmds).map stencilPassOf =
        ((List.range 8).filter (fun k =>
            (StencilBits8888 src
              ((dstBuffer.fb_stride * dstBuffer.bufferHeight) % 2 ^ 32)).testBit k)).map
          (fun k => some (2 ^ k, 2 ^ k)) := by
      rw [hres]
      obtain ⟨_, _, _, hd⟩ := multiPass_spec env self dstBuffer
        (StencilBits8888 src ((dstBuffer.fb_stride * dstBuffer.bufferHeight) % 2 ^ 32)) 256
        hk hc
      have hsnd : ∀ l : List OMState,
          l.map stencilPassOf = (l.map drawSummary).map Prod.snd := by
        intro l
        rw [List.map_map]
        rfl
      rw [hsnd, hd, List.map_map, hfmt]
      calc _ = (((doublingIndices 256 1 Nat.one_pos).filter (fun i => decide
                (StencilBits8888 src ((dstBuffer.fb_stride * dstBuffer.bufferHeight) % 2 ^ 32)
                  &&& i ≠ 0))).map (maskAndValue .GE_FORMAT_8888)).map some := by
              rw [List.map_map]; rfl
        _ = _ := by rw [hp, List.map_map]; rfl
    refine ⟨hmain, ?_⟩
    intro h5
    rw [hmain, h5]
    decide

/-- Witness for C8: two 8888 pixels with alpha 1 and 4, used bits `0b101`. -/
theorem NotifyStencilUpload_8888_draws_witness :
    (drawStates OMState.unknown
        (NotifyStencilUpload (simpleEnv [0, 0, 0, 1, 0, 0, 0, 4])
          (freshManager [simpleBuffer .GE_FORMAT_8888 2 1]) 0 8 false).cmds).map
      stencilPassOf = [some (1, 1), some (4, 4)] :=
  ((NotifyStencilUpload_8888_draws (simpleEnv [0, 0, 0, 1, 0, 0, 0, 4])
    (freshManager [simpleBuffer .GE_FORMAT_8888 2 1]) 0 8 false
    (simpleBuffer .GE_FORMAT_8888 2 1) [0, 0, 0, 1, 0, 0, 0, 4] rfl rfl rfl
    MaskStatesKeyed_empty rfl (by decide)).2.2 (fun _ => rfl)).2 (by decide)

/-! ## The pass loop: values, termination, number of draws -/

/-- C11. The loop visits `i = 1` for 5551, `i = 1, 2, 4, 8` for 4444 and
`i = 1, 2, 4, ..., 128` for 8888, and for each visited `i` the stored 8-bit
`(mask, value)` is the untruncated `(0xFF, 128 * i)`, `(i | (i << 4), 16 * i)`
and `(i, i)` respectively. -/
theorem maskAndValue_exact :
    (doublingIndices 2 1 Nat.one_pos = [1] ∧
      ∀ i, i ∈ doublingIndices 2 1 Nat.one_pos →
        maskAndValue .GE_FORMAT_5551 i = (0xFF, 128 * i)) ∧
    (doublingIndices 16 1 Nat.one_pos = [1, 2, 4, 8] ∧
      ∀ i, i ∈ doublingIndices 16 1 Nat.one_pos →
        maskAndValue .GE_FORMAT_4444 i = (i ||| (i <<< 4), 16 * i)) ∧
    (doublingIndices 256 1 Nat.one_pos = [1, 2, 4, 8, 16, 32, 64, 128] ∧
      ∀ i, i ∈ doublingIndices 256 1 Nat.one_pos →
        maskAndValue .GE_FORMAT_8888 i = (i, i)) := by
  refine ⟨⟨doublingIndices_two, ?_⟩, ⟨doublingIndices_sixteen, ?_⟩,
    ⟨doublingIndices_256, ?_⟩⟩
  · intro i hi
    rw [doublingIndices_two] at hi
    simp only [List.mem_cons, List.mem_singleton, List.not_mem_nil, or_false] at hi
    subst hi
    rfl
  · intro i hi
    rw [doublingIndices_sixteen] at hi
    simp only [List.mem_cons, List.mem_singleton, List.not_mem_nil, or_false] at hi
    rcases hi with rfl | rfl | rfl | rfl <;> rfl
  · intro i hi
    rw [doublingIndices_256] at hi
    simp only [List.mem_cons, List.mem_singleton, List.not_mem_nil, or_false] at hi
    rcases hi with rfl | rfl | rfl | rfl | rfl | rfl | rfl | rfl <;> rfl

/-- Witness for C11: the 4444 pass of `i = 8` stores `(0x88, 0x80)`. -/
theorem maskAndValue_exact_witness :
    maskAndValue .GE_FORMAT_4444 8 = (8 ||| (8 <<< 4), 16 * 8) :=
  maskAndValue_exact.2.1.2 8 (by simp [doublingIndices])

/-- With enough tests allowed, the bounded loop exits and visits the indices
of `doublingIndices`. -/
theorem doublingIndicesFuel_eq (values : Nat) (fuel i : Nat) (hi : 0 < i)
    (hfuel : 0 < fuel) (hlt : values < fuel + i) :
    doublingIndicesFuel values fuel i = some (doublingIndices values i hi) := by
  induction fuel generalizing i with
  | zero => omega
  | succ fuel ih =>
    rw [doublingIndicesFuel, doublingIndices]
    by_cases h : i < values
    · rw [if_pos h, dif_pos h, ih (i + i) (by omega) (by omega) (by omega)]
      rfl
    · rw [if_neg h, dif_neg h]

/-- The shapes a call can take, with the outcome of the format switch. -/
theorem NotifyStencilUpload_cases_scan (env : Env) (self : FramebufferManagerD3D11)
    (addr : Nat) (size : Int) (skipZero : Bool) :
    NotifyStencilUpload env self addr size skipZero =
        { ret := false, self := self, cmds := [] } ∨
    NotifyStencilUpload env self addr size skipZero =
        { ret := true, self := self, cmds := zeroClearCmds } ∨
    ∃ dstBuffer src usedBits values,
      scanByFormat dstBuffer src = some (usedBits, values) ∧ usedBits ≠ 0 ∧
      NotifyStencilUpload env self addr size skipZero =
        multiPass env self dstBuffer usedBits values := by
  by_cases h1 : env.MayIntersectFramebuffer addr = true
  · cases h2 : findDstBuffer env self.vfbs_ addr with
    | none => exact Or.inl (by simp [NotifyStencilUpload, h1, h2])
    | some dstBuffer =>
      cases h3 : env.GetPointer addr with
      | none => exact Or.inl (by simp [NotifyStencilUpload, h1, h2, h3])
      | some src =>
        cases h4 : scanByFormat dstBuffer src with
        | none => exact Or.inl (by simp [NotifyStencilUpload, h1, h2, h3, h4])
        | some uv =>
          obtain ⟨usedBits, values⟩ := uv
          rw [NotifyStencilUpload_resolved env self addr size skipZero dstBuffer src
            usedBits values h1 h2 h3 h4]
          by_cases hu : usedBits = 0
          · cases skipZero
            · exact Or.inr (Or.inl (by simp [hu]))
            · exact Or.inl (by simp [hu])
          · exact Or.inr (Or.inr ⟨dstBuffer, src, usedBits, values, h4, hu, by simp [hu]⟩)
  · exact Or.inl (by simp [NotifyStencilUpload, h1])

/-- The bound of the loop is 0, 2, 16 or 256. -/
theorem scanByFormat_values (dstBuffer : VirtualFramebuffer) (src : List Nat)
    (usedBits values : Nat) (h : scanByFormat dstBuffer src = some (usedBits, values)) :
    values = 0 ∨ values = 2 ∨ values = 16 ∨ values = 256 := by
  unfold scanByFormat at h
  cases hf : dstBuffer.format <;> simp only [hf] at h
  · exact absurd h (by simp)
  all_goals
    simp only [Option.some.injEq, Prod.mk.injEq] at h
    omega

/-- For each bound the loop exits within 9 tests of its condition and visits
at most 8 indices. -/
theorem doublingIndices_bounded (values : Nat)
    (h : values = 0 ∨ values = 2 ∨ values = 16 ∨ values = 256) :
    doublingIndicesFuel values 9 1 = some (doublingIndices values 1 Nat.one_pos) ∧
    (doublingIndices values 1 Nat.one_pos).length ≤ 8 := by
  rcases h with rfl | rfl | rfl | rfl
  · rw [doublingIndices_zero]; exact ⟨rfl, by decide⟩
  · rw [doublingIndices_two]; exact ⟨rfl, by decide⟩
  · rw [doublingIndices_sixteen]; exact ⟨rfl, by decide⟩
  · rw [doublingIndices_256]; exact ⟨rfl, by decide⟩

/-- C12. The pass loop `for (i = 1; i < values; i += i)` terminates: for every
bound it exits once enough tests of its condition are allowed, and for the
bounds the format switch produces 9 tests suffice. Every call of
`NotifyStencilUpload` issues at most 8 draws. -/
theorem passLoop_terminates_draws_le_8 :
    (∀ values fuel, values < fuel + 1 → 0 < fuel →
      doublingIndicesFuel values fuel 1 = some (doublingIndices values 1 Nat.one_pos)) ∧
    (∀ (dstBuffer : VirtualFramebuffer) (src : List Nat) (usedBits values : Nat),
      scanByFormat dstBuffer src = some (usedBits, values) →
      doublingIndicesFuel values 9 1 = some (doublingIndices values 1 Nat.one_pos) ∧
      (doublingIndices values 1 Nat.one_pos).length ≤ 8) ∧
    (∀ (env : Env) (self : FramebufferManagerD3D11) (addr : Nat) (size : Int)
        (skipZero : Bool),
      ((NotifyStencilUpload env self addr size skipZero).cmds.filter Cmd.isDraw).length
        ≤ 8) := by
  refine ⟨fun values fuel hlt hfuel =>
      doublingIndicesFuel_eq values fuel 1 Nat.one_pos hfuel hlt,
    fun dstBuffer src usedBits values h =>
      doublingIndices_bounded values (scanByFormat_values dstBuffer src usedBits values h), ?_⟩
  intro env self addr size skipZero
  rcases NotifyStencilUpload_cases_scan env self addr size skipZero with
    h | h | ⟨dstBuffer, src, usedBits, values, hscan, _, h⟩
  · rw [h]
    show ([] : List Cmd).length ≤ 8
    decide
  · rw [h]
    show (zeroClearCmds.filter Cmd.isDraw).length ≤ 8
    decide
  · rw [h, ← drawStates_length OMState.unknown]
    have hlen := congrArg List.length (multiPass_refs env self dstBuffer usedBits values)
    rw [List.length_map, List.length_map] at hlen
    rw [hlen]
    exact Nat.le_trans (List.length_filter_le _ _)
      (doublingIndices_bounded values
        (scanByFormat_values dstBuffer src usedBits values hscan)).2

/-- Witness for C12: the 8888 loop, allowed 300 tests, visits its 8 indices. -/
theorem passLoop_terminates_draws_le_8_witness :
    doublingIndicesFuel 256 300 1 = some (doublingIndices 256 1 Nat.one_pos) :=
  passLoop_terminates_draws_le_8.1 256 300 (by decide) (by decide)

/-- Bit positions at or above the width of a value hold no set bit. -/
theorem filter_range_testBit (u w n : Nat) (hu : u < 2 ^ w) (hn : w ≤ n) :
    (List.range n).filter (fun k => u.testBit k) =
      (List.range w).filter (fun k => u.testBit k) := by
  induction n, hn using Nat.le_induction with
  | base => rfl
  | succ n hn ih =>
    have hbit : u.testBit n = false :=
      Nat.testBit_lt_two_pow (Nat.lt_of_lt_of_le hu (Nat.pow_le_pow_right (by decide) hn))
    rw [List.range_succ, List.filter_append, ih]
    simp [hbit]

/-- For a stencil-bearing format the switch yields the bound `2 ^ width` and
used bits below it. -/
theorem scanByFormat_bound (dstBuffer : VirtualFramebuffer) (src : List Nat)
    (usedBits values : Nat)
    (hfmt : dstBuffer.format = .GE_FORMAT_5551 ∨ dstBuffer.format = .GE_FORMAT_4444 ∨
      dstBuffer.format = .GE_FORMAT_8888)
    (h : scanByFormat dstBuffer src = some (usedBits, values)) :
    values = 2 ^ stencilWidth dstBuffer.format ∧ usedBits < values := by
  unfold scanByFormat at h
  rcases hfmt with hf | hf | hf <;> simp only [hf] at h <;>
    simp only [Option.some.injEq, Prod.mk.injEq] at h <;> obtain ⟨hu, hv⟩ := h <;>
    subst hu hv <;> rw [hf]
  · have := StencilBits5551_le_one src ((dstBuffer.fb_stride * dstBuffer.bufferHeight) % 2 ^ 32)
    exact ⟨rfl, by omega⟩
  · have := StencilBits4444_lt src ((dstBuffer.fb_stride * dstBuffer.bufferHeight) % 2 ^ 32)
    exact ⟨rfl, by omega⟩
  · have := StencilBits8888_lt src ((dstBuffer.fb_stride * dstBuffer.bufferHeight) % 2 ^ 32)
    exact ⟨rfl, by omega⟩

/-- The reference values of the passes of a format, by bit position. -/
theorem refs_by_position (format : GEBufferFormat) (usedBits : Nat)
    (hfmt : format = .GE_FORMAT_5551 ∨ format = .GE_FORMAT_4444 ∨
      format = .GE_FORMAT_8888) :
    ((doublingIndices (2 ^ stencilWidth format) 1 Nat.one_pos).filter
        (fun i => decide (usedBits &&& i ≠ 0))).map
        (fun i => some (maskAndValue format i).2) =
      ((List.range (stencilWidth format)).filter (fun k => usedBits.testBit k)).map
        (fun k => some (2 ^ (k + (8 - stencilWidth format)))) := by
  rcases hfmt with hf | hf | hf <;> subst hf
  · show ((doublingIndices 2 1 Nat.one_pos).filter _).map _ = _
    rw [usedIndices_eq usedBits 1 2 (by rw [doublingIndices_two]; rfl), List.map_map]
    apply List.map_congr_left
    intro k hk
    have hk1 : k < 1 := List.mem_range.1 (List.mem_of_mem_filter hk)
    interval_cases k
    rfl
  · show ((doublingIndices 16 1 Nat.one_pos).filter _).map _ = _
    rw [usedIndices_eq usedBits 4 16 (by rw [doublingIndices_sixteen]; rfl), List.map_map]
    apply List.map_congr_left
    intro k hk
    have hk1 : k < 4 := List.mem_range.1 (List.mem_of_mem_filter hk)
    interval_cases k <;> rfl
  · show ((doublingIndices 256 1 Nat.one_pos).filter _).map _ = _
    rw [usedIndices_eq usedBits 8 256 (by rw [doublingIndices_256]; rfl), List.map_map]
    apply List.map_congr_left
    intro k hk
    have hk1 : k < 8 := List.mem_range.1 (List.mem_of_mem_filter hk)
    interval_cases k <;> rfl

/-- C16. For a stencil-bearing destination whose source scans to nonzero used
bits `u`, the call issues exactly `popcount(u)` draws, at least one: one per set
bit `k` of `u`, in ascending order, with reference value `2 ^ (k + 8 - w)`. No
set bit is beyond the loop bound. -/
theorem NotifyStencilUpload_draws_popcount (env : Env) (self : FramebufferManagerD3D11)
    (addr : Nat) (size : Int) (skipZero : Bool) (dstBuffer : VirtualFramebuffer)
    (src : List Nat) (usedBits values : Nat)
    (h1 : env.MayIntersectFramebuffer addr = true)
    (h2 : findDstBuffer env self.vfbs_ addr = some dstBuffer)
    (h3 : env.GetPointer addr = some src)
    (hfmt : dstBuffer.format = .GE_FORMAT_5551 ∨ dstBuffer.format = .GE_FORMAT_4444 ∨
      dstBuffer.format = .GE_FORMAT_8888)
    (h4 : scanByFormat dstBuffer src = some (usedBits, values))
    (hu : usedBits ≠ 0) :
    ((NotifyStencilUpload env self addr size skipZero).cmds.filter Cmd.isDraw).length =
      popcount8 usedBits ∧
    1 ≤ popcount8 usedBits ∧
    (drawStates OMState.unknown (NotifyStencilUpload env self addr size skipZero).cmds).map
        drawRef =
      ((List.range 8).filter (fun k => usedBits.testBit k)).map
        (fun k => some (2 ^ (k + (8 - stencilWidth dstBuffer.format)))) := by
  obtain ⟨hv, hlt⟩ := scanByFormat_bound dstBuffer src usedBits values hfmt h4
  have hw : stencilWidth dstBuffer.format ≤ 8 := by
    rcases hfmt with hf | hf | hf <;> rw [hf] <;> decide
  have hrange := filter_range_testBit usedBits (stencilWidth dstBuffer.format) 8
    (by rw [← hv]; exact hlt) hw
  have hrefs : (drawStates OMState.unknown
      (NotifyStencilUpload env self addr size skipZero).cmds).map drawRef =
      ((List.range 8).filter (fun k => usedBits.testBit k)).map
        (fun k => some (2 ^ (k + (8 - stencilWidth dstBuffer.format)))) := by
    rw [NotifyStencilUpload_resolved env self addr size skipZero dstBuffer src usedBits values
      h1 h2 h3 h4, if_neg hu, multiPass_refs, hv, refs_by_position _ _ hfmt, hrange]
  have hpos : 1 ≤ popcount8 usedBits := by
    obtain ⟨k, hk⟩ := Nat.ne_zero_implies_bit_true hu
    have hk8 : k < 8 := by
      by_contra hge
      have h256 : usedBits < 2 ^ 8 := Nat.lt_of_lt_of_le (by rw [← hv]; exact hlt)
        (Nat.pow_le_pow_right (by decide) hw)
      have := Nat.testBit_lt_two_pow
        (Nat.lt_of_lt_of_le h256 (Nat.pow_le_pow_right (by decide) (Nat.le_of_not_lt hge)))
      rw [this] at hk
      exact absurd hk (by decide)
    have hmem : k ∈ (List.range 8).filter (fun k => usedBits.testBit k) :=
      List.mem_filter.2 ⟨List.mem_range.2 hk8, hk⟩
    exact List.length_pos_of_mem hmem
  refine ⟨?_, hpos, hrefs⟩
  have hlen := congrArg List.length hrefs
  rw [List.length_map, List.length_map, drawStates_length] at hlen
  exact hlen

/-- Witness for C16: a 4444 image of two pixels with alpha nibbles 1 and 2
issues two draws. -/
theorem NotifyStencilUpload_draws_popcount_witness :
    ((NotifyStencilUpload (simpleEnv [0xBC, 0x1A, 0xEF, 0x2D])
        (freshManager [simpleBuffer .GE_FORMAT_4444 2 1]) 0 4 false).cmds.filter
      Cmd.isDraw).length = popcount8 3 :=
  (NotifyStencilUpload_draws_popcount (simpleEnv [0xBC, 0x1A, 0xEF, 0x2D])
    (freshManager [simpleBuffer .GE_FORMAT_4444 2 1]) 0 4 false
    (simpleBuffer .GE_FORMAT_4444 2 1) [0xBC, 0x1A, 0xEF, 0x2D] 3 16 rfl rfl rfl
    (Or.inr (Or.inl rfl)) (by decide) (by decide)).1

/-! ## The scanners and concatenation -/

theorem readU32_append_left (a b : List Nat) (na i : Nat) (ha : a.length = 4 * na)
    (hi : i < na) : readU32 (a ++ b) i = readU32 a i := by
  unfold readU32 readU8
  rw [List.getD_append a b 0 (4 * i) (by omega), List.getD_append a b 0 (4 * i + 1) (by omega),
    List.getD_append a b 0 (4 * i + 2) (by omega), List.getD_append a b 0 (4 * i + 3) (by omega)]

theorem readU32_append_right (a b : List Nat) (na i : Nat) (ha : a.length = 4 * na) :
    readU32 (a ++ b) (na + i) = readU32 b i := by
  unfold readU32 readU8
  rw [List.getD_append_right a b 0 (4 * (na + i)) (by omega),
    List.getD_append_right a b 0 (4 * (na + i) + 1) (by omega),
    List.getD_append_right a b 0 (4 * (na + i) + 2) (by omega),
    List.getD_append_right a b 0 (4 * (na + i) + 3) (by omega)]
  have e0 : 4 * (na + i) - a.length = 4 * i := by omega
  have e1 : 4 * (na + i) + 1 - a.length = 4 * i + 1 := by omega
  have e2 : 4 * (na + i) + 2 - a.length = 4 * i + 2 := by omega
  have e3 : 4 * (na + i) + 3 - a.length = 4 * i + 3 := by omega
  rw [e0, e1, e2, e3]

/-- A property holds for a word of `a ++ b` below `na + nb` exactly when it
holds for a word of `a` below `na` or a word of `b` below `nb`. -/
theorem exists_word_append (a b : List Nat) (na nb : Nat) (ha : a.length = 4 * na)
    (P : Nat → Prop) :
    (∃ j, j < na + nb ∧ P (readU32 (a ++ b) (0 + j))) ↔
      (∃ j, j < na ∧ P (readU32 a (0 + j))) ∨ (∃ j, j < nb ∧ P (readU32 b (0 + j))) := by
  simp only [Nat.zero_add]
  constructor
  · rintro ⟨j, hj, h⟩
    by_cases hlt : j < na
    · rw [readU32_append_left a b na j ha hlt] at h
      exact Or.inl ⟨j, hlt, h⟩
    · have e : j = na + (j - na) := by omega
      rw [e, readU32_append_right a b na (j - na) ha] at h
      exact Or.inr ⟨j - na, by omega, h⟩
  · rintro (⟨j, hj, h⟩ | ⟨j, hj, h⟩)
    · exact ⟨j, by omega, by rw [readU32_append_left a b na j ha hj]; exact h⟩
    · exact ⟨na + j, by omega, by rw [readU32_append_right a b na j ha]; exact h⟩

/-- The OR of the words of `a ++ b` is the OR of the two ORs. -/
theorem orWords_append (a b : List Nat) (na nb : Nat) (ha : a.length = 4 * na) :
    orWords (a ++ b) (na + nb) 0 0 = orWords a na 0 0 ||| orWords b nb 0 0 := by
  apply Nat.eq_of_testBit_eq
  intro k
  rw [Bool.eq_iff_iff, Nat.testBit_or, Bool.or_eq_true, orWords_testBit, orWords_testBit,
    orWords_testBit]
  simp only [Nat.zero_testBit, Bool.false_eq_true, false_or]
  exact exists_word_append a b na nb ha (fun w => w.testBit k = true)

theorem StencilBits8888_append (a b : List Nat) (na nb : Nat) (ha : a.length = 4 * na) :
    StencilBits8888 (a ++ b) (na + nb) = StencilBits8888 a na ||| StencilBits8888 b nb := by
  have e : (256 : Nat) = 2 ^ 8 := by norm_num
  unfold StencilBits8888
  simp only [orWords_append a b na nb ha]
  apply Nat.eq_of_testBit_eq
  intro k
  simp only [e, Nat.testBit_or, Nat.testBit_mod_two_pow, Nat.testBit_shiftRight]
  cases decide (k < 8) <;> simp

theorem StencilBits4444_append (a b : List Nat) (na nb : Nat) (ha : a.length = 2 * na)
    (heven : na % 2 = 0) :
    StencilBits4444 (a ++ b) (na + nb) = StencilBits4444 a na ||| StencilBits4444 b nb := by
  have e : (256 : Nat) = 2 ^ 8 := by norm_num
  have hdiv : (na + nb) / 2 = na / 2 + nb / 2 := by omega
  unfold StencilBits4444
  simp only [hdiv, orWords_append a b (na / 2) (nb / 2) (by omega)]
  apply Nat.eq_of_testBit_eq
  intro k
  simp only [e, Nat.testBit_or, Nat.testBit_and, Nat.testBit_mod_two_pow,
    Nat.testBit_shiftRight]
  cases decide (k < 8) <;> cases (15 : Nat).testBit k <;>
    cases (orWords a (na / 2) 0 0).testBit (12 + k) <;>
    cases (orWords a (na / 2) 0 0).testBit (28 + k) <;> simp

theorem StencilBits5551_append (a b : List Nat) (na nb : Nat) (ha : a.length = 2 * na)
    (heven : na % 2 = 0) :
    StencilBits5551 (a ++ b) (na + nb) = StencilBits5551 a na ||| StencilBits5551 b nb := by
  have hdiv : (na + nb) / 2 = na / 2 + nb / 2 := by omega
  unfold StencilBits5551
  rw [StencilBits5551_loop_eq, StencilBits5551_loop_eq, StencilBits5551_loop_eq, hdiv]
  have hsplit := exists_word_append a b (na / 2) (nb / 2) (by omega)
    (fun w => w &&& 0x80008000 ≠ 0)
  by_cases hA : ∃ j, j < na / 2 ∧ readU32 a (0 + j) &&& 0x80008000 ≠ 0
  · by_cases hB : ∃ j, j < nb / 2 ∧ readU32 b (0 + j) &&& 0x80008000 ≠ 0
    · rw [if_pos (hsplit.2 (Or.inl hA)), if_pos hA, if_pos hB]; rfl
    · rw [if_pos (hsplit.2 (Or.inl hA)), if_pos hA, if_neg hB]; rfl
  · by_cases hB : ∃ j, j < nb / 2 ∧ readU32 b (0 + j) &&& 0x80008000 ≠ 0
    · rw [if_pos (hsplit.2 (Or.inr hB)), if_neg hA, if_pos hB]; rfl
    · have hn : ¬ ∃ j, j < na / 2 + nb / 2 ∧ readU32 (a ++ b) (0 + j) &&& 0x80008000 ≠ 0 :=
        fun h => (hsplit.1 h).elim hA hB
      rw [if_neg hn, if_neg hA, if_neg hB]; rfl

/-- C17. Each scanner maps concatenation to bitwise OR: for a buffer `a` of
`na` pixels followed by `b`, scanning `na + nb` pixels of `a ++ b` gives the OR
of the scans of `a` and of `b`; for the two 16-bit formats this needs `na`
even. Hence swapping two word-aligned parts does not change the result. -/
theorem scanners_append_or :
    (∀ (a b : List Nat) (na nb : Nat), a.length = 4 * na →
      StencilBits8888 (a ++ b) (na + nb) = StencilBits8888 a na ||| StencilBits8888 b nb) ∧
    (∀ (a b : List Nat) (na nb : Nat), a.length = 2 * na → na % 2 = 0 →
      StencilBits4444 (a ++ b) (na + nb) = StencilBits4444 a na ||| StencilBits4444 b nb) ∧
    (∀ (a b : List Nat) (na nb : Nat), a.length = 2 * na → na % 2 = 0 →
      StencilBits5551 (a ++ b) (na + nb) = StencilBits5551 a na ||| StencilBits5551 b nb) ∧
    (∀ (a b : List Nat) (na nb : Nat), a.length = 4 * na → b.length = 4 * nb →
      StencilBits8888 (a ++ b) (na + nb) = StencilBits8888 (b ++ a) (nb + na)) ∧
    (∀ (a b : List Nat) (na nb : Nat), a.length = 2 * na → na % 2 = 0 →
      b.length = 2 * nb → nb % 2 = 0 →
      StencilBits4444 (a ++ b) (na + nb) = StencilBits4444 (b ++ a) (nb + na) ∧
      StencilBits5551 (a ++ b) (na + nb) = StencilBits5551 (b ++ a) (nb + na)) := by
  refine ⟨StencilBits8888_append, StencilBits4444_append, StencilBits5551_append, ?_, ?_⟩
  · intro a b na nb ha hb
    rw [StencilBits8888_append a b na nb ha, StencilBits8888_append b a nb na hb,
      Nat.lor_comm]
  · intro a b na nb ha hea hb heb
    rw [StencilBits4444_append a b na nb ha hea, StencilBits4444_append b a nb na hb heb,
      StencilBits5551_append a b na nb ha hea, StencilBits5551_append b a nb na hb heb]
    exact ⟨Nat.lor_comm _ _, Nat.lor_comm _ _⟩

/-- Witness for C17: two 4444 pixels with alpha 1 and 2 followed by two with
alpha 4 and 8. -/
theorem scanners_append_or_witness :
    StencilBits4444 ([0xBC, 0x1A, 0xEF, 0x2D] ++ [0, 0x40, 0, 0x80]) (2 + 2) =
      StencilBits4444 [0xBC, 0x1A, 0xEF, 0x2D] 2 ||| StencilBits4444 [0, 0x40, 0, 0x80] 2 :=
  scanners_append_or.2.1 [0xBC, 0x1A, 0xEF, 0x2D] [0, 0x40, 0, 0x80] 2 2 (by decide)
    (by decide)

/-! ## The cache of mask states -/

theorem createdMasks_append (a b : List Cmd) :
    createdMasks (a ++ b) = createdMasks a ++ createdMasks b := by
  simp [createdMasks, List.filterMap_append]

/-- The descriptor built for a mask is an always-pass, replace state for it. -/
theorem maskStateDesc_isMaskState (m : Nat) : IsMaskState m (maskStateDesc m) :=
  ⟨rfl, rfl, rfl, rfl, rfl, rfl, rfl, rfl, rfl⟩

/-- Calls that create no object, ask creations only for empty slots and bind
only the stock state, held objects, or null after a failed creation, leave the
table as it is. -/
theorem CacheStep_same (t : Nat → Option DepthStencilDesc) (cmds : List Cmd)
    (hc : createdMasks cmds = [])
    (hcreate : ∀ desc created, Cmd.CreateDepthStencilState desc created ∈ cmds →
      desc = maskStateDesc desc.StencilWriteMask ∧ t desc.StencilWriteMask = none)
    (hom : ∀ state ref, Cmd.OMSetDepthStencilState state ref ∈ cmds →
      state = DepthStencilState.depthDisabledStencilWrite ∨
        (state = DepthStencilState.null ∧
          ∃ desc, Cmd.CreateDepthStencilState desc false ∈ cmds) ∨
        ∃ m desc, state = DepthStencilState.object desc ∧ t m = some desc) :
    CacheStep t t cmds := by
  refine ⟨fun m desc h => h, by rw [hc]; exact List.nodup_nil, ?_, fun m desc h => Or.inl h,
    hcreate, hom⟩
  intro m hm
  rw [hc] at hm
  cases hm

/-- Two steps in a row make a step. -/
theorem CacheStep_trans (t t1 t2 : Nat → Option DepthStencilDesc) (e1 e2 : List Cmd)
    (h1 : CacheStep t t1 e1) (h2 : CacheStep t1 t2 e2) : CacheStep t t2 (e1 ++ e2) := by
  obtain ⟨a1, a2, a3, a4, a5, a6⟩ := h1
  obtain ⟨b1, b2, b3, b4, b5, b6⟩ := h2
  have hnone : ∀ m, t1 m = none → t m = none := by
    intro m hn
    cases ht : t m with
    | none => rfl
    | some desc =>
      rw [a1 m desc ht] at hn
      cases hn
  refine ⟨fun m desc h => b1 m desc (a1 m desc h), ?_, ?_, ?_, ?_, ?_⟩
  · rw [createdMasks_append]
    refine List.Nodup.append a2 b2 ?_
    intro m hm1 hm2
    have hs := (a3 m hm1).2
    have hn := (b3 m hm2).1
    rw [hs] at hn
    cases hn
  · intro m hm
    rw [createdMasks_append] at hm
    rcases List.mem_append.1 hm with h | h
    · exact ⟨(a3 m h).1, b1 m _ (a3 m h).2⟩
    · exact ⟨hnone m (b3 m h).1, (b3 m h).2⟩
  · intro m desc h
    rw [createdMasks_append]
    rcases b4 m desc h with h' | ⟨hd, hm⟩
    · rcases a4 m desc h' with h'' | ⟨hd, hm⟩
      · exact Or.inl h''
      · exact Or.inr ⟨hd, List.mem_append_left _ hm⟩
    · exact Or.inr ⟨hd, List.mem_append_right _ hm⟩
  · intro desc created h
    rcases List.mem_append.1 h with h | h
    · exact a5 desc created h
    · exact ⟨(b5 desc created h).1, hnone _ (b5 desc created h).2⟩
  · intro state ref h
    rcases List.mem_append.1 h with h | h
    · rcases a6 state ref h with hs | ⟨hs, desc, hd⟩ | ⟨m, desc, hs, ht⟩
      · exact Or.inl hs
      · exact Or.inr (Or.inl ⟨hs, desc, List.mem_append_left _ hd⟩)
      · exact Or.inr (Or.inr ⟨m, desc, hs, b1 m desc ht⟩)
    · rcases b6 state ref h with hs | ⟨hs, desc, hd⟩ | h'
      · exact Or.inl hs
      · exact Or.inr (Or.inl ⟨hs, desc, List.mem_append_right _ hd⟩)
      · exact Or.inr (Or.inr h')

/-- One iteration of the pass loop is a step of the cache, and every creation
it asks for has the outcome the device gives. -/
theorem passBody_cacheStep (env : Env) (format : GEBufferFormat) (usedBits i : Nat)
    (st : (Nat → Option DepthStencilDesc) × List Cmd) :
    ∃ extra, (passBody env format usedBits st i).2 = st.2 ++ extra ∧
      CacheStep st.1 (passBody env format usedBits st i).1 extra ∧
      ∀ desc created, Cmd.CreateDepthStencilState desc created ∈ extra →
        created = env.CreateDepthStencilState desc := by
  by_cases hu : usedBits &&& i = 0
  · refine ⟨[], by simp [passBody, hu], ?_, by simp⟩
    have ht : (passBody env format usedBits st i).1 = st.1 := by simp [passBody, hu]
    rw [ht]
    exact CacheStep_same st.1 [] rfl (by simp) (by simp)
  · by_cases hnone : st.1 (maskAndValue format i).1 = none
    · by_cases hok : env.CreateDepthStencilState
          (maskStateDesc (maskAndValue format i).1) = true
      · refine ⟨[.CreateDepthStencilState (maskStateDesc (maskAndValue format i).1) true,
          .OMSetDepthStencilState (.object (maskStateDesc (maskAndValue format i).1))
            (maskAndValue format i).2, .Draw 4 0],
          by simp [passBody, hu, hnone, hok, slotState], ?_, ?_⟩
        · have ht : (passBody env format usedBits st i).1 =
              Function.update st.1 (maskAndValue format i).1
                (some (maskStateDesc (maskAndValue format i).1)) := by
            simp [passBody, hu, hnone, hok]
          have hcm : createdMasks [Cmd.CreateDepthStencilState
              (maskStateDesc (maskAndValue format i).1) true,
              .OMSetDepthStencilState (.object (maskStateDesc (maskAndValue format i).1))
                (maskAndValue format i).2, .Draw 4 0] = [(maskAndValue format i).1] := rfl
          rw [ht]
          refine ⟨?_, by rw [hcm]; exact List.nodup_singleton _, ?_, ?_, ?_, ?_⟩
          · intro m desc h
            by_cases hm : m = (maskAndValue format i).1
            · subst hm
              rw [hnone] at h
              cases h
            · rw [Function.update_noteq hm]
              exact h
          · intro m hm
            rw [hcm, List.mem_singleton] at hm
            subst hm
            exact ⟨hnone, Function.update_same _ _ _⟩
          · intro m desc h
            rw [hcm]
            by_cases hm : m = (maskAndValue format i).1
            · subst hm
              rw [Function.update_same] at h
              cases h
              exact Or.inr ⟨rfl, List.mem_singleton.2 rfl⟩
            · rw [Function.update_noteq hm] at h
              exact Or.inl h
          · intro desc created h
            simp only [List.mem_cons, List.mem_singleton, List.not_mem_nil, or_false,
              Cmd.CreateDepthStencilState.injEq, reduceCtorEq] at h
            obtain ⟨hd, _⟩ := h
            subst hd
            exact ⟨rfl, hnone⟩
          · intro state ref h
            simp only [List.mem_cons, List.mem_singleton, List.not_mem_nil, or_false,
              Cmd.OMSetDepthStencilState.injEq, reduceCtorEq, false_or] at h
            exact Or.inr (Or.inr ⟨(maskAndValue format i).1,
              maskStateDesc (maskAndValue format i).1, h.1, Function.update_same _ _ _⟩)
        · intro desc created h
          simp only [List.mem_cons, List.mem_singleton, List.not_mem_nil, or_false,
            Cmd.CreateDepthStencilState.injEq, reduceCtorEq] at h
          obtain ⟨hd, hcr⟩ := h
          subst hd
          rw [hcr, hok]
      · have hfalse : env.CreateDepthStencilState
            (maskStateDesc (maskAndValue format i).1) = false := by
          simpa using hok
        refine ⟨[.CreateDepthStencilState (maskStateDesc (maskAndValue format i).1) false,
          .OMSetDepthStencilState .null (maskAndValue format i).2, .Draw 4 0],
          by simp [passBody, hu, hnone, hfalse, slotState], ?_, ?_⟩
        · have ht : (passBody env format usedBits st i).1 = st.1 := by
            simp [passBody, hu, hnone, hfalse]
          rw [ht]
          refine CacheStep_same st.1 _ rfl ?_ ?_
          · intro desc created h
            simp only [List.mem_cons, List.mem_singleton, List.not_mem_nil, or_false,
              Cmd.CreateDepthStencilState.injEq, reduceCtorEq] at h
            obtain ⟨hd, _⟩ := h
            subst hd
            exact ⟨rfl, hnone⟩
          · intro state ref h
            simp only [List.mem_cons, List.mem_singleton, List.not_mem_nil, or_false,
              Cmd.OMSetDepthStencilState.injEq, reduceCtorEq, false_or] at h
            exact Or.inr (Or.inl ⟨h.1, _, List.mem_cons_self _ _⟩)
        · intro desc created h
          simp only [List.mem_cons, List.mem_singleton, List.not_mem_nil, or_false,
            Cmd.CreateDepthStencilState.injEq, reduceCtorEq] at h
          obtain ⟨hd, hcr⟩ := h
          subst hd
          rw [hcr, hfalse]
    · obtain ⟨desc, hdesc⟩ := Option.ne_none_iff_exists'.1 hnone
      refine ⟨[.OMSetDepthStencilState (.object desc) (maskAndValue format i).2, .Draw 4 0],
        by simp [passBody, hu, hnone, hdesc, slotState], ?_, by simp⟩
      have ht : (passBody env format usedBits st i).1 = st.1 := by simp [passBody, hu, hnone]
      rw [ht]
      refine CacheStep_same st.1 _ rfl (by simp) ?_
      intro state ref h
      simp only [List.mem_cons, List.mem_singleton, List.not_mem_nil, or_false,
        Cmd.OMSetDepthStencilState.injEq, reduceCtorEq] at h
      exact Or.inr (Or.inr ⟨(maskAndValue format i).1, desc, h.1, hdesc⟩)

/-- The pass loop over any list of indices is a step of the cache. -/
theorem foldl_passBody_cacheStep (env : Env) (format : GEBufferFormat) (usedBits : Nat)
    (is : List Nat) (st : (Nat → Option DepthStencilDesc) × List Cmd) :
    ∃ extra, (is.foldl (passBody env format usedBits) st).2 = st.2 ++ extra ∧
      CacheStep st.1 (is.foldl (passBody env format usedBits) st).1 extra ∧
      ∀ desc created, Cmd.CreateDepthStencilState desc created ∈ extra →
        created = env.CreateDepthStencilState desc := by
  induction is generalizing st with
  | nil => exact ⟨[], by simp, CacheStep_same st.1 [] rfl (by simp) (by simp), by simp⟩
  | cons i is ih =>
    obtain ⟨e1, he1, hs1, hc1⟩ := passBody_cacheStep env format usedBits i st
    obtain ⟨e2, he2, hs2, hc2⟩ := ih (passBody env format usedBits st i)
    refine ⟨e1 ++ e2, by rw [List.foldl_cons, he2, he1, List.append_assoc],
      CacheStep_trans _ _ _ e1 e2 hs1 hs2, ?_⟩
    intro desc created h
    rcases List.mem_append.1 h with h | h
    · exact hc1 desc created h
    · exact hc2 desc created h

/-- The calls before the pass loop ask for no state object and bind only the
stock state. -/
theorem preLoop_cacheStep (env : Env) (self : FramebufferManagerD3D11)
    (dstBuffer : VirtualFramebuffer) (t : Nat → Option DepthStencilDesc) :
    CacheStep t t ((ensureShaders env self).2 ++
      setupCmds (ensureShaders env self).1 dstBuffer) ∧
    ∀ desc created, Cmd.CreateDepthStencilState desc created ∉
      (ensureShaders env self).2 ++ setupCmds (ensureShaders env self).1 dstBuffer := by
  have hsh : CacheStep t t (ensureShaders env self).2 ∧
      ∀ desc created, Cmd.CreateDepthStencilState desc created ∉
        (ensureShaders env self).2 := by
    unfold ensureShaders
    by_cases h1 : self.stencilUploadPS_ = none <;>
      by_cases h2 : self.stencilUploadVS_ = none <;>
      exact ⟨CacheStep_same t _ (by simp [h1, h2, createdMasks, createdMask])
        (by simp [h1, h2]) (by simp [h1, h2]), by simp [h1, h2]⟩
  have hset : CacheStep t t (setupCmds (ensureShaders env self).1 dstBuffer) ∧
      ∀ desc created, Cmd.CreateDepthStencilState desc created ∉
        setupCmds (ensureShaders env self).1 dstBuffer := by
    unfold setupCmds
    cases dstBuffer.fbo <;>
      exact ⟨CacheStep_same t _ (by simp [createdMasks, createdMask]) (by simp) (by simp),
        by simp⟩
  refine ⟨CacheStep_trans t t t _ _ hsh.1 hset.1, ?_⟩
  intro desc created h
  rcases List.mem_append.1 h with h | h
  · exact hsh.2 desc created h
  · exact hset.2 desc created h

/-- The multi-pass path is a step of the cache. -/
theorem multiPass_cacheStep (env : Env) (self : FramebufferManagerD3D11)
    (dstBuffer : VirtualFramebuffer) (usedBits values : Nat) :
    CacheStep self.stencilMaskStates_
      (multiPass env self dstBuffer usedBits values).self.stencilMaskStates_
      (multiPass env self dstBuffer usedBits values).cmds ∧
    ∀ desc created, Cmd.CreateDepthStencilState desc created ∈
        (multiPass env self dstBuffer usedBits values).cmds →
      created = env.CreateDepthStencilState desc := by
  obtain ⟨extra, he, hs, hcr⟩ := foldl_passBody_cacheStep env dstBuffer.format usedBits
    (doublingIndices values 1 Nat.one_pos)
    ((ensureShaders env self).1.stencilMaskStates_,
      (ensureShaders env self).2 ++ setupCmds (ensureShaders env self).1 dstBuffer)
  have hcmds : (multiPass env self dstBuffer usedBits values).cmds =
      ((ensureShaders env self).2 ++ setupCmds (ensureShaders env self).1 dstBuffer) ++
        (extra ++ [Cmd.RebindFramebuffer]) := by
    simp only [multiPass, passLoop]
    rw [he, List.append_assoc]
  have htab : (multiPass env self dstBuffer usedBits values).self.stencilMaskStates_ =
      ((doublingIndices values 1 Nat.one_pos).foldl
        (passBody env dstBuffer.format usedBits)
        ((ensureShaders env self).1.stencilMaskStates_,
          (ensureShaders env self).2 ++ setupCmds (ensureShaders env self).1 dstBuffer)).1 :=
    rfl
  obtain ⟨hpre, hpre2⟩ := preLoop_cacheStep env self dstBuffer self.stencilMaskStates_
  rw [hcmds, htab]
  simp only [ensureShaders_table] at hs ⊢
  refine ⟨?_, ?_⟩
  · refine CacheStep_trans _ _ _ _ _ hpre ?_
    refine CacheStep_trans _ _ _ _ _ hs ?_
    exact CacheStep_same _ _ rfl (by simp) (by simp)
  · intro desc created h
    rcases List.mem_append.1 h with h | h
    · exact absurd h (hpre2 desc created)
    · rcases List.mem_append.1 h with h | h
      · exact hcr desc created h
      · simp at h

/-- One call of `NotifyStencilUpload` is a step of the cache. -/
theorem NotifyStencilUpload_cacheStep (env : Env) (self : FramebufferManagerD3D11)
    (addr : Nat) (size : Int) (skipZero : Bool) :
    CacheStep self.stencilMaskStates_
      (NotifyStencilUpload env self addr size skipZero).self.stencilMaskStates_
      (NotifyStencilUpload env self addr size skipZero).cmds ∧
    ∀ desc created, Cmd.CreateDepthStencilState desc created ∈
        (NotifyStencilUpload env self addr size skipZero).cmds →
      created = env.CreateDepthStencilState desc := by
  rcases NotifyStencilUpload_cases env self addr size skipZero with
    h | h | ⟨dstBuffer, usedBits, values, h⟩
  · rw [h]
    exact ⟨CacheStep_same _ _ rfl (by simp) (by simp), by simp⟩
  · rw [h]
    exact ⟨CacheStep_same _ _ rfl (by simp [zeroClearCmds]) (by simp [zeroClearCmds]),
      by simp [zeroClearCmds]⟩
  · rw [h]
    exact multiPass_cacheStep env self dstBuffer usedBits values

/-- Any sequence of calls is a step of the cache, and every creation asked for
has the outcome the device of its call gives. -/
theorem runCalls_cacheStep (self : FramebufferManagerD3D11)
    (calls : List (Env × Nat × Int × Bool)) :
    CacheStep self.stencilMaskStates_ (runCalls self calls).1.stencilMaskStates_
      (runCalls self calls).2 ∧
    ∀ desc created, Cmd.CreateDepthStencilState desc created ∈ (runCalls self calls).2 →
      ∃ c, c ∈ calls ∧ created = c.1.CreateDepthStencilState desc := by
  induction calls generalizing self with
  | nil =>
    exact ⟨CacheStep_same _ _ rfl (by simp [runCalls]) (by simp [runCalls]),
      by simp [runCalls]⟩
  | cons c calls ih =>
    obtain ⟨env, addr, size, skipZero⟩ := c
    obtain ⟨hs1, hc1⟩ := NotifyStencilUpload_cacheStep env self addr size skipZero
    obtain ⟨hs2, hc2⟩ := ih (NotifyStencilUpload env self addr size skipZero).self
    refine ⟨CacheStep_trans _ _ _ _ _ hs1 hs2, ?_⟩
    intro desc created h
    rcases List.mem_append.1 h with h | h
    · exact ⟨(env, addr, size, skipZero), List.mem_cons_self _ _, hc1 desc created h⟩
    · obtain ⟨c, hc, hcr⟩ := hc2 desc created h
      exact ⟨c, List.mem_cons_of_mem _ hc, hcr⟩

/-- C13, as stated, fails when the device does not create the state of a pass:
for one 8888 pixel of alpha 1 and a failing device, the pass of mask 1 is drawn
with a null state and the cache holds no entry for mask 1 afterwards. -/
theorem maskStateCache_counterexample :
    (maskAndValue .GE_FORMAT_8888 1).1 = 1 ∧
    (drawStates OMState.unknown
        (NotifyStencilUpload (failingEnv [0, 0, 0, 1])
          (freshManager [simpleBuffer .GE_FORMAT_8888 1 1]) 0 4 false).cmds).map
      (fun s => s.depthStencil) = [some (DepthStencilState.null, 1)] ∧
    (NotifyStencilUpload (failingEnv [0, 0, 0, 1])
        (freshManager [simpleBuffer .GE_FORMAT_8888 1 1]) 0 4
        false).self.stencilMaskStates_ 1 = none := by
  rw [NotifyStencilUpload_resolved (failingEnv [0, 0, 0, 1])
    (freshManager [simpleBuffer .GE_FORMAT_8888 1 1]) 0 4 false
    (simpleBuffer .GE_FORMAT_8888 1 1) [0, 0, 0, 1] 1 256 rfl rfl rfl (by decide),
    if_neg (by decide), multiPass_256]
  exact ⟨rfl, rfl, rfl⟩

/-- C13, amended. Over any sequence of calls of `NotifyStencilUpload`: a cached
entry is never replaced or removed; a state object is created at most once per
write mask `m`; a creation is asked only for a write mask whose slot is empty,
with an always-pass, replace descriptor of that write mask; a created object is
in the cache afterwards; every state bound is the stock state, an object the
cache holds afterwards, or null after a creation that failed; if every entry
was an always-pass, replace state of its key before, it is so after, and each
object bound is cached under its own write mask; and when the device of every
call creates the states it is asked for, every pass binds an object that the
cache holds afterwards. -/
theorem maskStateCache_get_or_create (self : FramebufferManagerD3D11)
    (calls : List (Env × Nat × Int × Bool)) :
    (∀ m desc, self.stencilMaskStates_ m = some desc →
      (runCalls self calls).1.stencilMaskStates_ m = some desc) ∧
    (createdMasks (runCalls self calls).2).Nodup ∧
    (∀ m, m ∈ createdMasks (runCalls self calls).2 →
      self.stencilMaskStates_ m = none ∧
      ∃ desc, (runCalls self calls).1.stencilMaskStates_ m = some desc ∧
        IsMaskState m desc) ∧
    (∀ desc created, Cmd.CreateDepthStencilState desc created ∈ (runCalls self calls).2 →
      self.stencilMaskStates_ desc.StencilWriteMask = none ∧
      IsMaskState desc.StencilWriteMask desc) ∧
    (∀ state ref, Cmd.OMSetDepthStencilState state ref ∈ (runCalls self calls).2 →
      state = DepthStencilState.depthDisabledStencilWrite ∨
        (state = DepthStencilState.null ∧
          ∃ desc, Cmd.CreateDepthStencilState desc false ∈ (runCalls self calls).2) ∨
        ∃ m desc, state = DepthStencilState.object desc ∧
          (runCalls self calls).1.stencilMaskStates_ m = some desc) ∧
    (MaskStatesAlwaysReplace self.stencilMaskStates_ →
      MaskStatesAlwaysReplace (runCalls self calls).1.stencilMaskStates_ ∧
      ∀ desc ref, Cmd.OMSetDepthStencilState (.object desc) ref ∈ (runCalls self calls).2 →
        (runCalls self calls).1.stencilMaskStates_ desc.StencilWriteMask = some desc) ∧
    ((∀ c, c ∈ calls → ∀ desc, c.1.CreateDepthStencilState desc = true) →
      ∀ state ref, Cmd.OMSetDepthStencilState state ref ∈ (runCalls self calls).2 →
        state = DepthStencilState.depthDisabledStencilWrite ∨
          ∃ m desc, state = DepthStencilState.object desc ∧
            (runCalls self calls).1.stencilMaskStates_ m = some desc) := by
  obtain ⟨⟨a1, a2, a3, a4, a5, a6⟩, hout⟩ := runCalls_cacheStep self calls
  refine ⟨a1, a2, ?_, ?_, a6, ?_, ?_⟩
  · intro m hm
    exact ⟨(a3 m hm).1, maskStateDesc m, (a3 m hm).2, maskStateDesc_isMaskState m⟩
  · intro desc created h
    obtain ⟨hd, hn⟩ := a5 desc created h
    refine ⟨hn, ?_⟩
    have := maskStateDesc_isMaskState desc.StencilWriteMask
    rw [← hd] at this
    exact this
  · intro hcan
    have hcan2 : MaskStatesAlwaysReplace (runCalls self calls).1.stencilMaskStates_ := by
      intro m desc h
      rcases a4 m desc h with h' | ⟨hd, _⟩
      · exact hcan m desc h'
      · rw [hd]
        exact maskStateDesc_isMaskState m
    refine ⟨hcan2, ?_⟩
    intro desc ref h
    rcases a6 _ ref h with hs | ⟨hs, _⟩ | ⟨m, desc', hs, ht⟩
    · cases hs
    · cases hs
    · cases hs
      have hw : desc.StencilWriteMask = m := (hcan2 m desc ht).2.2.2.1
      rw [hw]
      exact ht
  · intro hok state ref h
    rcases a6 state ref h with hs | ⟨_, desc, hd⟩ | h'
    · exact Or.inl hs
    · obtain ⟨c, hc, hcr⟩ := hout desc false hd
      rw [hok c hc desc] at hcr
      cases hcr
    · exact Or.inr h'

/-- Witness for C13 (amended): two uploads of the same 8888 image, starting
from an empty cache; the second upload finds the states of the first. -/
theorem maskStateCache_get_or_create_witness :
    MaskStatesAlwaysReplace
      (runCalls (freshManager [simpleBuffer .GE_FORMAT_8888 2 1])
        [(simpleEnv [0, 0, 0, 1, 0, 0, 0, 4], 0, 8, false),
         (simpleEnv [0, 0, 0, 1, 0, 0, 0, 4], 0, 8, false)]).1.stencilMaskStates_ :=
  ((maskStateCache_get_or_create (freshManager [simpleBuffer .GE_FORMAT_8888 2 1])
    [(simpleEnv [0, 0, 0, 1, 0, 0, 0, 4], 0, 8, false),
     (simpleEnv [0, 0, 0, 1, 0, 0, 0, 4], 0, 8, false)]).2.2.2.2.2.1
    (fun m desc h => by cases h)).1

/-! ## The quad of a reconstruction pass -/

/-- For a positive logical size the 20 floats written to the quad buffer hold
the four clip-space corners, in the order `(-1,1)`, `(1,1)`, `(1,-1)`,
`(-1,-1)`. -/
theorem quadCoord_corners (fw fh : ℚ) (hw : 0 < fw) (hh : 0 < fh) :
    quadCoord fw fh =
      [-1, 1, 0, 0, 0,
       1, 1, 0, 1, 0,
       1, -1, 0, 1, 1,
       -1, -1, 0, 0, 1] := by
  have hw2 : fw * (1 / (fw * (1 / 2))) = 2 := by
    field_simp
  have hh2 : fh * (1 / (fh * (1 / 2))) = 2 := by
    field_simp
  simp only [quadCoord, List.range, List.range.loop, List.foldl, List.set, List.getD_cons_zero,
    List.getD_cons_succ, Nat.reduceMul, Nat.reduceAdd, hw2, hh2]
  norm_num

/-- C14. Evaluation at a 480 x 272 target: the four vertices written are the
clip-space corners `(-1,1)`, `(1,1)`, `(1,-1)`, `(-1,-1)` in that order, and the
point `(-1/2, 0)` of the clip-space square lies in neither of the two triangles
`(v0,v1,v2)`, `(v1,v2,v3)` of the triangle strip. -/
theorem quad_strip_leaves_gap :
    quadVertex (quadCoord 480 272) 0 = (-1, 1) ∧
    quadVertex (quadCoord 480 272) 1 = (1, 1) ∧
    quadVertex (quadCoord 480 272) 2 = (1, -1) ∧
    quadVertex (quadCoord 480 272) 3 = (-1, -1) ∧
    ¬ stripCovers (quadCoord 480 272) (-1 / 2, 0) := by
  rw [quadCoord_corners 480 272 (by norm_num) (by norm_num)]
  refine ⟨by simp [quadVertex], by simp [quadVertex], by simp [quadVertex],
    by simp [quadVertex], ?_⟩
  norm_num [stripCovers, inTriangle, edgeFunction, quadVertex]

/-! ## The extraction pixel shader -/

theorem roundAndScaleTo255f_div_255 (n : Nat) (hn : n ≤ 255) :
    roundAndScaleTo255f ((n : ℚ) / 255) = (n : ℚ) := by
  have hq : (n : ℚ) ≤ 255 := by exact_mod_cast hn
  have hq0 : (0 : ℚ) ≤ (n : ℚ) := Nat.cast_nonneg n
  have hfloor : ⌊(n : ℚ) / 255 * (25599 / 100)⌋ = (n : ℤ) := by
    rw [Int.floor_eq_iff]
    constructor
    · push_cast
      linarith
    · push_cast
      linarith
  unfold roundAndScaleTo255f
  rw [hfloor]
  norm_cast

theorem fmod_natCast_two (m : Nat) : fmod (m : ℚ) 2 = ((m % 2 : Nat) : ℚ) := by
  have hnn : (0 : ℚ) ≤ (m : ℚ) / 2 := by positivity
  have hfloor : ⌊(m : ℚ) / 2⌋ = ((m / 2 : Nat) : ℤ) := by
    have := Rat.floor_natCast_div_natCast m 2
    simpa using this
  unfold fmod
  rw [if_pos hnn, hfloor, Int.cast_natCast]
  have hdm : (m : ℚ) = 2 * ((m / 2 : Nat) : ℚ) + ((m % 2 : Nat) : ℚ) := by
    exact_mod_cast (Nat.div_add_mod m 2).symm
  linarith

/-- For 8-bit `A` and `V` handed to the shader as `A / 255` and `V / 255`, the
fragment survives the `clip` exactly when `floor(A / V)` is odd. -/
theorem stencil_ps_keeps_nat (A V : Nat) (hA : A ≤ 255) (hV : V ≤ 255) :
    stencil_ps_keeps ((A : ℚ) / 255) ((V : ℚ) / 255) ↔ (A / V) % 2 = 1 := by
  have hfloor : ⌊(A : ℚ) / (V : ℚ)⌋ = ((A / V : Nat) : ℤ) := by
    have := Rat.floor_natCast_div_natCast A V
    simpa using this
  unfold stencil_ps_keeps stencil_ps_shifted
  rw [roundAndScaleTo255f_div_255 A hA, roundAndScaleTo255f_div_255 V hV, hfloor,
    Int.cast_natCast, fmod_natCast_two]
  rcases Nat.mod_two_eq_zero_or_one (A / V) with h | h
  · rw [h]
    norm_num
  · rw [h]
    norm_num

/-- Every reference value derived by the pass loop of a stencil-bearing format
is a power of two below 256. -/
theorem maskAndValue_value_pow (format : GEBufferFormat) (i : Nat)
    (hfmt : format = .GE_FORMAT_5551 ∨ format = .GE_FORMAT_4444 ∨
      format = .GE_FORMAT_8888)
    (hi : i ∈ doublingIndices (2 ^ stencilWidth format) 1 Nat.one_pos) :
    ∃ k, k < 8 ∧ (maskAndValue format i).2 = 2 ^ k := by
  rcases hfmt with hf | hf | hf <;> subst hf
  · have hi2 : i ∈ doublingIndices 2 1 Nat.one_pos := hi
    rw [doublingIndices_two] at hi2
    simp only [List.mem_cons, List.mem_singleton, List.not_mem_nil, or_false] at hi2
    subst hi2
    exact ⟨7, by decide, rfl⟩
  · have hi2 : i ∈ doublingIndices 16 1 Nat.one_pos := hi
    rw [doublingIndices_sixteen] at hi2
    simp only [List.mem_cons, List.mem_singleton, List.not_mem_nil, or_false] at hi2
    rcases hi2 with rfl | rfl | rfl | rfl
    · exact ⟨4, by decide, rfl⟩
    · exact ⟨5, by decide, rfl⟩
    · exact ⟨6, by decide, rfl⟩
    · exact ⟨7, by decide, rfl⟩
  · have hi2 : i ∈ doublingIndices 256 1 Nat.one_pos := hi
    rw [doublingIndices_256] at hi2
    simp only [List.mem_cons, List.mem_singleton, List.not_mem_nil, or_false] at hi2
    rcases hi2 with rfl | rfl | rfl | rfl | rfl | rfl | rfl | rfl
    · exact ⟨0, by decide, rfl⟩
    · exact ⟨1, by decide, rfl⟩
    · exact ⟨2, by decide, rfl⟩
    · exact ⟨3, by decide, rfl⟩
    · exact ⟨4, by decide, rfl⟩
    · exact ⟨5, by decide, rfl⟩
    · exact ⟨6, by decide, rfl⟩
    · exact ⟨7, by decide, rfl⟩

/-- C15. In exact arithmetic, for every 8-bit alpha `A` sampled as `A / 255` and
every reference value `V` that the pass loop derives, handed to the shader as
`V / 255`: `floor(A/255 * 255.99) = A`, `floor(V/255 * 255.99) = V`, the
fragment survives `clip(fmod(floor(A / V), 2) - 0.99)` exactly when
`floor(A / V)` is odd, and `V = 2 ^ k` with that being bit `k` of `A`. -/
theorem stencil_ps_keeps_iff_bit (format : GEBufferFormat) (i A : Nat)
    (hfmt : format = .GE_FORMAT_5551 ∨ format = .GE_FORMAT_4444 ∨
      format = .GE_FORMAT_8888)
    (hi : i ∈ doublingIndices (2 ^ stencilWidth format) 1 Nat.one_pos)
    (hA : A ≤ 255) :
    roundAndScaleTo255f ((A : ℚ) / 255) = (A : ℚ) ∧
    roundAndScaleTo255f (((maskAndValue format i).2 : ℚ) / 255) =
      ((maskAndValue format i).2 : ℚ) ∧
    (stencil_ps_keeps ((A : ℚ) / 255) (((maskAndValue format i).2 : ℚ) / 255) ↔
      (A / (maskAndValue format i).2) % 2 = 1) ∧
    ∃ k, k < 8 ∧ (maskAndValue format i).2 = 2 ^ k ∧
      (stencil_ps_keeps ((A : ℚ) / 255) (((maskAndValue format i).2 : ℚ) / 255) ↔
        A.testBit k = true) := by
  obtain ⟨k, hk, hV⟩ := maskAndValue_value_pow format i hfmt hi
  have hV255 : (maskAndValue format i).2 ≤ 255 := by
    rw [hV]
    have : 2 ^ k ≤ 2 ^ 7 := Nat.pow_le_pow_right (by decide) (by omega)
    omega
  refine ⟨roundAndScaleTo255f_div_255 A hA, roundAndScaleTo255f_div_255 _ hV255,
    stencil_ps_keeps_nat A _ hA hV255, k, hk, hV, ?_⟩
  rw [stencil_ps_keeps_nat A _ hA hV255, hV, Nat.testBit_to_div_mod]
  simp

/-- Witness for C15: alpha `0x90` and the 4444 pass of `i = 1` (`V = 16`). -/
theorem stencil_ps_keeps_iff_bit_witness :
    stencil_ps_keeps ((0x90 : Nat) / 255)
        (((maskAndValue .GE_FORMAT_4444 1).2 : ℚ) / 255) ↔
      (0x90 / (maskAndValue .GE_FORMAT_4444 1).2) % 2 = 1 :=
  (stencil_ps_keeps_iff_bit .GE_FORMAT_4444 1 0x90 (Or.inr (Or.inl rfl))
    (by simp [stencilWidth, doublingIndices]) (by decide)).2.2.1

end StencilBufferD3D11
